import Mathlib

/-!
Verification development for the Continuum galaxy parser
(`src/continuum/continuum_parser.py`).

The Python source is shallowly embedded: text is `List Char`, Python dicts
are association lists with insert-or-overwrite semantics, and each regular
expression that the parser uses is translated into an explicit scanner over
`List Char` (the patterns involved use only literals, `\s*`, `([^"]+)"` and
`([-\d.]+)` pieces, none of which require backtracking, so a greedy
left-to-right scanner implements exactly the Python `re` behaviour on them).
-/

/-- Python's `\s` / `str.strip()` whitespace set. -/
def isWsChar (c : Char) : Bool :=
  c = ' ' || c = '\t' || c = '\n' || c = '\r' || c = '\x0b' || c = '\x0c'

/-- `str.strip()`: drop whitespace from both ends. -/
def trimWs (l : List Char) : List Char :=
  ((l.dropWhile isWsChar).reverse.dropWhile isWsChar).reverse

/-- Python's `sub in s` substring test. -/
def isSubstr (pat l : List Char) : Bool :=
  l.tails.any (fun t => pat.isPrefixOf t)

/-- Python slice `t[a:b]` (for `0 ≤ a ≤ b`). -/
def pySlice (t : List Char) (a b : Nat) : List Char :=
  (t.drop a).take (b - a)

/-- Characters accepted by the `[-\d.]+` capture groups. -/
def isNumTokChar (c : Char) : Bool :=
  c.isDigit || c = '-' || c = '.'

/-- One piece of a translated regular expression. -/
inductive PatTok where
  | lit (s : List Char)
  | ws
  | capQ
  | capNum
deriving Repr

/-- A translated regular expression: a sequence of pieces.
`lit s` is a literal, `ws` is `\s*`, `capQ` is `([^"]+)"`
(capture group plus its closing quote) and `capNum` is `([-\d.]+)`. -/
def Pat := List PatTok

/-- Try to match a pattern at the head of `t`; on success return the list of
captured groups and the remaining text after the match. -/
def patMatchAt : List PatTok → List Char → Option (List (List Char) × List Char)
  | [], t => some ([], t)
  | .lit s :: ps, t =>
    if s.isPrefixOf t then patMatchAt ps (t.drop s.length) else none
  | .ws :: ps, t => patMatchAt ps (t.dropWhile isWsChar)
  | .capQ :: ps, t =>
    let cap := t.takeWhile (fun c => c ≠ '"')
    if cap.isEmpty then none
    else
      match t.drop cap.length with
      | '"' :: rest => (patMatchAt ps rest).map (fun pr => (cap :: pr.1, pr.2))
      | _ => none
  | .capNum :: ps, t =>
    let cap := t.takeWhile isNumTokChar
    if cap.isEmpty then none
    else (patMatchAt ps (t.drop cap.length)).map (fun pr => (cap :: pr.1, pr.2))

/-- `re.search`: try the pattern at every position, left to right.  On the
first success return `(matchStart, captures, matchLength)`. -/
def patSearchAux (pat : List PatTok) : List Char → Nat → Option (Nat × List (List Char) × Nat)
  | t, idx =>
    match patMatchAt pat t with
    | some (caps, rest) => some (idx, caps, t.length - rest.length)
    | none =>
      match t with
      | [] => none
      | _ :: t' => patSearchAux pat t' (idx + 1)

/-- `re.search(...).start()` of the leftmost match. -/
def patSearchStart (pat : List PatTok) (t : List Char) : Option Nat :=
  (patSearchAux pat t 0).map (fun r => r.1)

/-- Captured groups of the leftmost match of `pat` in `t`. -/
def patSearchCaps (pat : List PatTok) (t : List Char) : Option (List (List Char)) :=
  (patSearchAux pat t 0).map (fun r => r.2.1)

/-- `re.findall` with a single capture group: first captures of all
non-overlapping leftmost matches.  `fuel` bounds the number of scans;
`t.length + 1` always suffices since every match consumes at least one
character. -/
def patFindAllAux (pat : List PatTok) : Nat → List Char → List (List Char)
  | 0, _ => []
  | fuel + 1, t =>
    match patSearchAux pat t 0 with
    | none => []
    | some (s, caps, len) =>
      caps.headD [] :: patFindAllAux pat fuel (t.drop (s + max len 1))

/-- `re.findall(pat, t)` for a pattern with one capture group. -/
def patFindAll (pat : List PatTok) (t : List Char) : List (List Char) :=
  patFindAllAux pat (t.length + 1) t

/-- `text.index(c, i0)`: least index `≥ i0` holding `c`, if any. -/
def charIndexFrom (t : List Char) (c : Char) (i0 : Nat) : Option Nat :=
  ((t.drop i0).findIdx? (fun x => x = c)).map (fun j => j + i0)

/-- Per-character contribution to the brace depth counter. -/
def charDelta (c : Char) : Int :=
  if c = '{' then 1 else if c = '}' then -1 else 0

/-- Net brace depth change over a string
(`s.count('{') - s.count('}')` in the Python source). -/
def braceDelta (l : List Char) : Int :=
  (l.count '{' : Int) - (l.count '}' : Int)

/-- The scanning loop of `_get_nested_block_content`: walk the characters,
maintaining the brace level (incremented on `{`, decremented on `}`), and
return the absolute index at which the level first returns to zero.
`l` is `text[i:]` and `lvl` the level entering the scan. -/
def braceScanAux : List Char → Nat → Int → Option Nat
  | [], _, _ => none
  | c :: rest, i, lvl =>
    let lvl' := lvl + charDelta c
    if lvl' = 0 then some i else braceScanAux rest (i + 1) lvl'

/-- `_get_nested_block_content(text, start_regex, start_index)`:
find the leftmost match of the pattern in `text[start_index:]`, then the
first `{` at or after the match start, then scan braces until the level
returns to zero; return the content strictly between the braces together
with the span `(search_start, i + 1)`.  `(none, -1, -1)` on any failure. -/
def getNestedBlockContent (pat : List PatTok) (text : List Char) (startIndex : Nat) :
    Option (List Char) × Int × Int :=
  match patSearchStart pat (text.drop startIndex) with
  | none => (none, -1, -1)
  | some mStart =>
    let searchStart := startIndex + mStart
    match charIndexFrom text '{' searchStart with
    | none => (none, -1, -1)
    | some bPos =>
      let contentStart := bPos + 1
      match braceScanAux (text.drop contentStart) contentStart 1 with
      | some i => (some (pySlice text contentStart i), (searchStart : Int), (i : Int) + 1)
      | none => (none, -1, -1)

/-- Content-only view of `_get_nested_block_content(text, pat)` (the resolver
and the block parsers always call it with `start_index = 0` and use only the
first component). -/
def nestedContent (pat : List PatTok) (text : List Char) : Option (List Char) :=
  (getNestedBlockContent pat text 0).1

/-! ## Localization table and small helpers -/

/-- A Python dict with `List Char` keys, as an association list;
lookup finds the first (and, for dict-built lists, only) binding. -/
def locLookup {α : Type} (m : List (List Char × α)) (k : List Char) : Option α :=
  (m.find? (fun p => p.1 == k)).map (fun p => p.2)

/-- `dict.get(k, d)`. -/
def locGetD (m : List (List Char × List Char)) (k d : List Char) : List Char :=
  (locLookup m k).getD d

/-- `dict[k] = v`: overwrite an existing binding in place, else append. -/
def dictInsert {α : Type} (m : List (List Char × α)) (k : List Char) (v : α) :
    List (List Char × α) :=
  if m.any (fun p => p.1 == k) then m.map (fun p => if p.1 == k then (k, v) else p)
  else m ++ [(k, v)]

/-- Python truthiness of an optional string: present and non-empty. -/
def optTruthy : Option (List Char) → Bool
  | some s => !s.isEmpty
  | none => false

/-- `s.replace('_', ' ')`. -/
def underscoresToSpaces (l : List Char) : List Char :=
  l.map (fun c => if c = '_' then ' ' else c)

/-! ## Name resolver (`resolve_name`) -/

/-- `'key="HABITAT_PLANET_NAME"'`. -/
def habMark1 : List Char := "key=\"HABITAT_PLANET_NAME\"".toList

/-- `'key="FROM.from.solar_system.GetName"'`. -/
def habMark2 : List Char := "key=\"FROM.from.solar_system.GetName\"".toList

/-- `r'key="FROM\.from\.solar_system\.GetName"\s*value\s*=\s*{\s*key="([^"]+)"'`. -/
def habitatCapPat : List PatTok :=
  [.lit habMark2, .ws, .lit ("value".toList), .ws, .lit ("=".toList), .ws,
   .lit ("\x7b".toList), .ws, .lit ("key=\"".toList), .capQ]

/-- `r'key="([^"]+)"'`. -/
def keyCapPat : List PatTok := [.lit ("key=\"".toList), .capQ]

/-- `r'variables\s*=\s*{'`. -/
def varsPat : List PatTok :=
  [.lit ("variables".toList), .ws, .lit ("=".toList), .ws, .lit ("\x7b".toList)]

/-- `r'key="NAME"\s*value\s*=\s*{'`. -/
def nameVarPat : List PatTok :=
  [.lit ("key=\"NAME\"".toList), .ws, .lit ("value".toList), .ws, .lit ("=".toList), .ws,
   .lit ("\x7b".toList)]

/-- `r'key="PARENT"\s*value\s*=\s*{'`. -/
def parentVarPat : List PatTok :=
  [.lit ("key=\"PARENT\"".toList), .ws, .lit ("value".toList), .ws, .lit ("=".toList), .ws,
   .lit ("\x7b".toList)]

/-- `r'key="NUMERAL"\s*value\s*=\s*{'`. -/
def numeralVarPat : List PatTok :=
  [.lit ("key=\"NUMERAL\"".toList), .ws, .lit ("value".toList), .ws, .lit ("=".toList), .ws,
   .lit ("\x7b".toList)]

/-- `r'key="prefix"\s*value\s*=\s*{'`. -/
def pfxVarPat : List PatTok :=
  [.lit ("key=\"prefix\"".toList), .ws, .lit ("value".toList), .ws, .lit ("=".toList), .ws,
   .lit ("\x7b".toList)]

/-- `r'key="suffix"\s*value\s*=\s*{'`. -/
def sfxVarPat : List PatTok :=
  [.lit ("key=\"suffix\"".toList), .ws, .lit ("value".toList), .ws, .lit ("=".toList), .ws,
   .lit ("\x7b".toList)]

/-- `re.findall(r'key="NUMERAL"\s*value\s*=\s*{\s*key="([^"]+)"', ..., re.DOTALL)`
(the `DOTALL` flag is irrelevant: the pattern has no `.` and `\s` already
matches newlines). -/
def numeralFindPat : List PatTok :=
  [.lit ("key=\"NUMERAL\"".toList), .ws, .lit ("value".toList), .ws, .lit ("=".toList), .ws,
   .lit ("\x7b".toList), .ws, .lit ("key=\"".toList), .capQ]

/-- The habitat special case at the top of `resolve_name`: both marker
substrings present and the capture regex matching yields
`"{resolved} Habitat Complex"`; otherwise the resolver continues normally. -/
def habitatResult (loc : List (List Char × List Char)) (text : List Char) :
    Option (List Char) :=
  if isSubstr habMark1 text && isSubstr habMark2 text then
    match patSearchCaps habitatCapPat text with
    | some (sysName :: _) =>
      some (locGetD loc sysName (underscoresToSpaces sysName) ++ (" Habitat Complex".toList))
    | _ => none
  else none

/-- Key extraction: `re.search(r'^\s*key="([^"]+)"', ...)` (anchored: without
`re.MULTILINE` the `^` only matches at position 0), with the unanchored
search as fallback. -/
def rawKey (text : List Char) : Option (List Char) :=
  match patMatchAt [.ws, .lit ("key=\"".toList), .capQ] text with
  | some (k :: _, _) => some k
  | _ =>
    match patSearchCaps keyCapPat text with
    | some (k :: _) => some k
    | _ => none

/-- `if name_key.startswith('$') and name_key.endswith('$'): name_key.strip('$')`. -/
def stripDollar (k : List Char) : List Char :=
  if k.head? = some '$' && k.getLast? = some '$' then
    ((k.dropWhile (fun c => c = '$')).reverse.dropWhile (fun c => c = '$')).reverse
  else k

/-- The key `resolve_name` works with: extracted then `$`-stripped. -/
def extractedKey (text : List Char) : Option (List Char) :=
  (rawKey text).map stripDollar

/-- The guard selecting the parametric-family block:
`name_key.startswith("STAR_NAME_") or name_key.endswith("_NAME_FORMAT") or
name_key.startswith("NEW_COLONY_NAME")`. -/
def keyFamilyCond (key : List Char) : Bool :=
  ("STAR_NAME_".toList).isPrefixOf key || ("_NAME_FORMAT".toList).isSuffixOf key ||
    ("NEW_COLONY_NAME".toList).isPrefixOf key

/-- `re.match(r'STAR_NAME_(\d)_OF_(\d)', name_key)`: anchored at the start,
one digit each; returns the two digit values. -/
def starNameMatch : List Char → Option (Nat × Nat)
  | 'S' :: 'T' :: 'A' :: 'R' :: '_' :: 'N' :: 'A' :: 'M' :: 'E' :: '_' ::
      d1 :: '_' :: 'O' :: 'F' :: '_' :: d2 :: _ =>
    if d1.isDigit && d2.isDigit then some (d1.toNat - 48, d2.toNat - 48) else none
  | _ => none

/-- `re.sub(r'(_system|_SYSTEM)$', '', k)`. -/
def stripSystemSfx (k : List Char) : List Char :=
  if ("_system".toList).isSuffixOf k then k.take (k.length - 7)
  else if ("_SYSTEM".toList).isSuffixOf k then k.take (k.length - 7)
  else k

/-- `re.sub(r'^(NAME_|SPEC_)', '', k)`. -/
def stripLeadMarkers (k : List Char) : List Char :=
  if ("NAME_".toList).isPrefixOf k then k.drop 5
  else if ("SPEC_".toList).isPrefixOf k then k.drop 5
  else k

/-- The cleanup fallback at the bottom of `resolve_name`. -/
def cleanupKey (k : List Char) : List Char :=
  underscoresToSpaces (stripLeadMarkers (stripSystemSfx k))

/-- Behaviour of `resolve_name` once the parametric-family block is done:
localization lookup, else cleanup fallback. -/
def afterFamily (loc : List (List Char × List Char)) (key : List Char) : List Char :=
  match locLookup loc key with
  | some v => v
  | none => cleanupKey key

/-- The moon-numeral join of the `SUBPLANET_NAME_FORMAT` branch:
"roman-style" numerals (`len > 1` or a single character whose upper-case is
`I`/`V`/`X`) are appended with a space, others lower-cased and concatenated. -/
def subplanetJoin (base num : List Char) : List Char :=
  if 1 < num.length ||
      (num.map Char.toUpper = ("I".toList) || num.map Char.toUpper = ("V".toList) ||
        num.map Char.toUpper = ("X".toList)) then
    base ++ ' ' :: num
  else base ++ num.map Char.toLower

/-- The parametric-family block of `resolve_name` (entered when
`keyFamilyCond` holds and the `variables` block is non-empty).  `recur` is
the recursive call to the resolver. -/
def resolveFamilies (recur : List Char → Option Nat → Option (List Char) → List Char)
    (loc : List (List Char × List Char)) (key vcontent : List Char)
    (starCount : Option Nat) (parentBodyName : Option (List Char)) : List Char :=
  if ("STAR_NAME_".toList).isPrefixOf key || ("NEW_COLONY_NAME".toList).isPrefixOf key then
    match nestedContent nameVarPat vcontent with
    | some nvb =>
      if nvb.isEmpty then "Unknown Star".toList
      else
        let base := recur nvb starCount none
        if ("NEW_COLONY_NAME".toList).isPrefixOf key then base ++ (" Prime".toList)
        else
          match starNameMatch key, starCount with
          | some nn, some c =>
            if 1 < c then
              if 1 ≤ nn.1 && nn.1 ≤ 3 then base ++ [' ', (['A', 'B', 'C']).getD (nn.1 - 1) 'A']
              else base
            else base
          | _, _ => base
    | none => "Unknown Star".toList
  else if key = ("PLANET_NAME_FORMAT".toList) then
    match nestedContent parentVarPat vcontent, nestedContent numeralVarPat vcontent with
    | some pvb, some nvb =>
      if pvb.isEmpty || nvb.isEmpty then "Unknown Planet".toList
      else
        let parentName := recur pvb starCount none
        match patSearchCaps keyCapPat nvb with
        | some (numKey :: _) => parentName ++ ' ' :: numKey
        | _ => "Unknown Planet".toList
    | _, _ => "Unknown Planet".toList
  else if key = ("SUBPLANET_NAME_FORMAT".toList) then
    match nestedContent parentVarPat vcontent with
    | some pvb =>
      let numerals := patFindAll numeralFindPat vcontent
      if pvb.isEmpty || numerals.isEmpty then "Unknown Moon".toList
      else
        let base := recur pvb starCount none
        let num := numerals.getLastD []
        match parentBodyName with
        | some pb => if !pb.isEmpty && base ≠ pb then base else subplanetJoin base num
        | none => subplanetJoin base num
    | none => "Unknown Moon".toList
  else if key = ("ASTEROID_NAME_FORMAT".toList) then
    (match nestedContent pfxVarPat vcontent with
      | some pb =>
        if pb.isEmpty then []
        else
          match patSearchCaps keyCapPat pb with
          | some (v :: _) => v
          | _ => []
      | none => []) ++
    (match nestedContent sfxVarPat vcontent with
      | some sb =>
        if sb.isEmpty then []
        else
          match patSearchCaps keyCapPat sb with
          | some (v :: _) => v
          | _ => []
      | none => [])
  else afterFamily loc key

/-- One unfolding of `resolve_name`, with the recursive occurrences
abstracted as `recur`. -/
def resolveStep (recur : List Char → Option Nat → Option (List Char) → List Char)
    (loc : List (List Char × List Char)) (text : List Char)
    (starCount : Option Nat) (parentBodyName : Option (List Char)) : List Char :=
  if text.isEmpty then "Unknown".toList
  else
    match habitatResult loc text with
    | some r => r
    | none =>
      match extractedKey text with
      | none => "Unknown".toList
      | some key =>
        match nestedContent varsPat text with
        | some vcontent =>
          if keyFamilyCond key && !vcontent.isEmpty then
            resolveFamilies recur loc key vcontent starCount parentBodyName
          else afterFamily loc key
        | none => afterFamily loc key

/-- `resolve_name` with explicit fuel.  Every recursive call of the Python
function operates on the content of a nested brace block, a strictly shorter
string (proved below), so fuel `text.length + 1` always suffices and the
fuel-out branch is unreachable from `resolveName`. -/
def resolveNameGo (loc : List (List Char × List Char)) :
    Nat → List Char → Option Nat → Option (List Char) → List Char
  | 0, _, _, _ => "Unknown".toList
  | fuel + 1, text, sc, pn =>
    resolveStep (fun t s p => resolveNameGo loc fuel t s p) loc text sc pn

/-- `resolve_name(name_block_content, loc_data, star_count_context,
parent_body_name)`. -/
def resolveName (loc : List (List Char × List Char)) (text : List Char)
    (sc : Option Nat) (pn : Option (List Char)) : List Char :=
  resolveNameGo loc (text.length + 1) text sc pn

/-! ## Keyed section scanner (`parse_keyed_section`) -/

/-- Require exactly `n` leading tab characters. -/
def dropTabs : Nat → List Char → Option (List Char)
  | 0, l => some l
  | n + 1, '\t' :: l => dropTabs n l
  | _ + 1, _ => none

/-- The header regexes `r'^\t(\d+)='` / `r'^\t\t(\d+)='`:
`tabs` tab characters, one or more digits (captured), then `=`. -/
def headerMatch (tabs : Nat) (l : List Char) : Option (List Char) :=
  match dropTabs tabs l with
  | none => none
  | some r =>
    let ds := r.takeWhile Char.isDigit
    if ds.isEmpty then none
    else
      match r.drop ds.length with
      | '=' :: _ => some ds
      | _ => none

/-- The nested loop of `parse_keyed_section`: accumulate lines, adding each
line's brace count delta, until the level drops to `≤ 0` (or the stream
ends).  Returns the consumed lines and the remaining stream. -/
def consumeBlock : List (List Char) → Int → List (List Char) × List (List Char)
  | [], _ => ([], [])
  | l :: rest, lvl =>
    if lvl + braceDelta l ≤ 0 then ([l], rest)
    else
      (l :: (consumeBlock rest (lvl + braceDelta l)).1, (consumeBlock rest (lvl + braceDelta l)).2)

/-- `parse_keyed_section` with explicit fuel (one unit per line examined by
the outer loop; `lines.length + 1` always suffices). -/
def parseKeyedSectionAux {α : Type} (hdr : List Char → Option (List Char))
    (p : List Char → α) :
    Nat → List (List Char) → List (List Char × α) → List (List Char × α)
  | 0, _, acc => acc
  | _ + 1, [], acc => acc
  | fuel + 1, l :: rest, acc =>
    if trimWs l = ['}'] then acc
    else
      match hdr l with
      | none => parseKeyedSectionAux hdr p fuel rest acc
      | some id =>
        if isSubstr ("none".toList) l then parseKeyedSectionAux hdr p fuel rest acc
        else
          if braceDelta l ≤ 0 && l.contains '{' then
            parseKeyedSectionAux hdr p fuel rest (dictInsert acc id (p l))
          else
            parseKeyedSectionAux hdr p fuel (consumeBlock rest (braceDelta l)).2
              (dictInsert acc id (p ((l :: (consumeBlock rest (braceDelta l)).1).flatten)))

/-- `parse_keyed_section(line_iterator, header_regex, block_parser_func)`. -/
def parseKeyedSection {α : Type} (hdr : List Char → Option (List Char))
    (p : List Char → α) (lines : List (List Char)) : List (List Char × α) :=
  parseKeyedSectionAux hdr p (lines.length + 1) lines []

/-- Sum of per-line brace deltas. -/
def sumDeltas (ls : List (List Char)) : Int :=
  (ls.map braceDelta).sum

/-- Shape of one item of a section's line stream: a record whose header line
already balances its braces, a record with a multi-line body, or a header
line carrying the `none` sentinel. -/
inductive SectionItem where
  | single (header : List Char)
  | multi (header : List Char) (body : List (List Char))
  | skipLine (l : List Char)

/-- The lines an item contributes to the stream. -/
def itemLines : SectionItem → List (List Char)
  | .single h => [h]
  | .multi h b => h :: b
  | .skipLine l => [l]

/-- The map entry an item should produce (`none` for a skipped slot). -/
def itemEntry {α : Type} (tabs : Nat) (p : List Char → α) :
    SectionItem → Option (List Char × α)
  | .single h => (headerMatch tabs h).map (fun id => (id, p h))
  | .multi h b => (headerMatch tabs h).map (fun id => (id, p (h :: b).flatten))
  | .skipLine _ => none

/-- The captured ID of a record item. -/
def itemId (tabs : Nat) : SectionItem → Option (List Char)
  | .single h => headerMatch tabs h
  | .multi h _ => headerMatch tabs h
  | .skipLine _ => none

/-- Well-formedness of a stream item at indent depth `tabs`: the header
matches the header regex, is not a terminator line, and the brace-depth
bookkeeping delimits exactly the item's own lines (for a multi-line record:
positive depth after the header, strictly positive cumulative depth after
every proper prefix of the body, and depth `≤ 0` after the full body). -/
def WfItem (tabs : Nat) : SectionItem → Prop
  | .single h =>
    (headerMatch tabs h).isSome ∧ isSubstr ("none".toList) h = false ∧
      trimWs h ≠ ['}'] ∧ braceDelta h ≤ 0 ∧ h.contains '{' = true
  | .multi h b =>
    (headerMatch tabs h).isSome ∧ isSubstr ("none".toList) h = false ∧
      trimWs h ≠ ['}'] ∧ 0 < braceDelta h ∧ b ≠ [] ∧
      (∀ i, i + 1 < b.length → 0 < braceDelta h + sumDeltas (b.take (i + 1))) ∧
      braceDelta h + sumDeltas b ≤ 0
  | .skipLine l =>
    (headerMatch tabs l).isSome ∧ isSubstr ("none".toList) l = true ∧ trimWs l ≠ ['}']

/-! ## Wormhole pairing (`parse_stellaris_save`, bypass loop) -/

/-- Fields of a record produced by `parse_generic_block` that the wormhole
pairing and the bypass-to-system map read. -/
structure GenericRec where
  type : Option (List Char)
  linkedTo : Option (List Char)
  bypass : Option (List Char)
  origin : Option (List Char)
deriving DecidableEq

/-- Lexicographic (code-point) comparison, Python string `<`. -/
def listLt : List Char → List Char → Bool
  | [], [] => false
  | [], _ :: _ => true
  | _ :: _, [] => false
  | x :: xs, y :: ys => if x < y then true else if x = y then listLt xs ys else false

/-- `tuple(sorted((a, b)))` for two strings. -/
def sortPair (a b : List Char) : List Char × List Char :=
  if listLt b a then (b, a) else (a, b)

/-- `bypass_to_system_map`: for every natural wormhole holding both a
`bypass` and an `origin` field, map the bypass ID to the origin system. -/
def bypassToSystemMap (nws : List (List Char × GenericRec)) :
    List (List Char × List Char) :=
  nws.foldl
    (fun m pr =>
      match pr.2.bypass, pr.2.origin with
      | some b, some o => dictInsert m b o
      | _, _ => m)
    []

/-- The bypass loop of `parse_stellaris_save`: for each unprocessed bypass of
type `wormhole` with a `linked_to` partner, look both endpoints up in the
bypass-to-system map; if both are truthy, record the sorted system pair
unless already present; mark both bypasses processed. -/
def wormholeLoop (btsm : List (List Char × List Char)) :
    List (List Char × GenericRec) → List (List Char × List Char) → List (List Char) →
      List (List Char × List Char)
  | [], pairs, _ => pairs
  | (id, d) :: rest, pairs, processed =>
    match d.linkedTo with
    | none => wormholeLoop btsm rest pairs processed
    | some partner =>
      if d.type = some ("wormhole".toList) && !(processed.any (fun x => x == id)) then
        let pairs' :=
          match locLookup btsm id, locLookup btsm partner with
          | some a, some b =>
            if !a.isEmpty && !b.isEmpty then
              let pr := sortPair a b
              if pairs.any (fun q => q == pr) then pairs else pairs ++ [pr]
            else pairs
          | _, _ => pairs
        wormholeLoop btsm rest pairs' (processed ++ [id, partner])
      else wormholeLoop btsm rest pairs processed

/-- The deduplicated wormhole pair list computed from the bypass section. -/
def wormholePairs (btsm : List (List Char × List Char))
    (bypasses : List (List Char × GenericRec)) : List (List Char × List Char) :=
  wormholeLoop btsm bypasses [] []

/-- A bypass record of type `wormhole` linked to `partner`
(as produced by `parse_generic_block` for such a record). -/
def mkWormholeRec (partner : List Char) : GenericRec :=
  ⟨some ("wormhole".toList), some partner, none, none⟩

/-! ## Hierarchy builder (`build_galaxy_hierarchy`) -/

/-- The fields of a parsed planet record that drive hierarchy construction
and body-kind classification. -/
structure PlanetRec where
  moonOf : Option (List Char)
  planetClass : Option (List Char)
deriving DecidableEq

/-- The fields of a parsed star (galactic object) record that drive
hierarchy construction; `dispName` is the display name (resolved by
`resolveName` from the raw name block before the hierarchy passes) as used
in the per-system progress line. -/
structure StarRec where
  planetIds : List (List Char)
  dispName : List Char

/-- A parent pointer: the synthetic system-center node or another body. -/
inductive ParentRef where
  | center
  | body (id : List Char)
deriving DecidableEq

/-- `planets[p_id]` lookup. -/
def lookupPlanet (planets : List (List Char × PlanetRec)) (pid : List Char) :
    Option PlanetRec :=
  locLookup planets pid

/-- Keys of `all_bodies_in_system_map` in insertion order: the star's
`planet_ids` that exist in the planets dict, first occurrence kept. -/
def systemBodyIds (planets : List (List Char × PlanetRec)) (planetIds : List (List Char)) :
    List (List Char) :=
  planetIds.foldl
    (fun ks pid =>
      if (lookupPlanet planets pid).isSome then
        if ks.any (fun k => k == pid) then ks else ks ++ [pid]
      else ks)
    []

/-- A body's `moon_of` field. -/
def bodyMoonOf (planets : List (List Char × PlanetRec)) (pid : List Char) :
    Option (List Char) :=
  (lookupPlanet planets pid).bind PlanetRec.moonOf

/-- The parent assignments performed by the first hierarchy pass
("explicitly parent moons first, based on `moon_of` tag"): one assignment
per body whose `moon_of` target is present in the same system's body map. -/
def moonAssignments (planets : List (List Char × PlanetRec)) (bodies : List (List Char)) :
    List (List Char × ParentRef) :=
  bodies.filterMap
    (fun b =>
      match bodyMoonOf planets b with
      | some p => if bodies.any (fun k => k == p) then some (b, ParentRef.body p) else none
      | none => none)

/-- The parent assignments performed by the second hierarchy pass ("parent
all remaining unparented bodies to the system center"). -/
def centerAssignments (planets : List (List Char × PlanetRec)) (bodies : List (List Char)) :
    List (List Char × ParentRef) :=
  (bodies.filter
      (fun b => !(moonAssignments planets bodies).any (fun a => a.1 == b))).map
    (fun b => (b, ParentRef.center))

/-- The full trace of parent assignments made while building one system, in
execution order. -/
def parentTrace (planets : List (List Char × PlanetRec)) (bodies : List (List Char)) :
    List (List Char × ParentRef) :=
  moonAssignments planets bodies ++ centerAssignments planets bodies

/-- The final value of a body's `parent` field: its (unique) assignment. -/
def parentOf (planets : List (List Char × PlanetRec)) (bodies : List (List Char))
    (b : List Char) : ParentRef :=
  (((parentTrace planets bodies).find? (fun a => a.1 == b)).map (fun a => a.2)).getD
    ParentRef.center

/-- A node's `children` list: the bodies whose parent pointer is that node,
in body-map insertion order (the order both passes append children). -/
def childrenOf (planets : List (List Char × PlanetRec)) (bodies : List (List Char))
    (r : ParentRef) : List (List Char) :=
  bodies.filter (fun b => parentOf planets bodies b == r)

/-- `set_nesting_levels`: the recursive traversal from a node, recording the
`nesting_level` written at each visited node.  Fuel bounds the recursion
depth; `bodies.length + 1` suffices because a descending chain from the
center never repeats a body. -/
def assignLevels (planets : List (List Char × PlanetRec)) (bodies : List (List Char)) :
    Nat → ParentRef → Nat → List (ParentRef × Nat)
  | 0, r, lvl => [(r, lvl)]
  | fuel + 1, r, lvl =>
    (r, lvl) ::
      (childrenOf planets bodies r).flatMap
        (fun c => assignLevels planets bodies fuel (ParentRef.body c) (lvl + 1))

/-- The level assignments of `set_nesting_levels(system_center, 0)`. -/
def nestingTrace (planets : List (List Char × PlanetRec)) (bodies : List (List Char)) :
    List (ParentRef × Nat) :=
  assignLevels planets bodies (bodies.length + 1) ParentRef.center 0

/-- One built system: its bodies, parent-assignment trace and
nesting-level-assignment trace. -/
structure BuiltSystem where
  starId : List Char
  bodies : List (List Char)
  parents : List (List Char × ParentRef)
  levels : List (ParentRef × Nat)
deriving DecidableEq

/-- A body's recorded nesting level (first, and for tree-reachable bodies
only, assignment in the trace); `none` when the traversal never visited the
body, i.e. the Python dict never receives a `nesting_level` key. -/
def sysLevelOf (s : BuiltSystem) (r : ParentRef) : Option Nat :=
  ((s.levels.find? (fun e => e.1 == r)).map (fun e => e.2))

/-- A body's final parent pointer in a built system. -/
def sysParentOf (s : BuiltSystem) (b : List Char) : ParentRef :=
  (((s.parents.find? (fun a => a.1 == b)).map (fun a => a.2)).getD ParentRef.center)

/-- `build_galaxy_hierarchy(stars, planets, loc_data)`: for each star build
the per-system body map, the parent assignments of the two passes, and the
nesting-level assignments; also emit the per-system progress line (the only
output `build_galaxy_hierarchy` prints).  Coordinates and name resolution do
not influence parents or levels and are modeled separately. -/
def buildGalaxyHierarchy (stars : List (List Char × StarRec))
    (planets : List (List Char × PlanetRec)) : List BuiltSystem × List (List Char) :=
  (stars.map
      (fun pr =>
        let bodies := systemBodyIds planets pr.2.planetIds
        ⟨pr.1, bodies, parentTrace planets bodies, nestingTrace planets bodies⟩),
   stars.map
      (fun pr => ("System ".toList) ++ pr.2.dispName ++ (": Processed hierarchy.".toList)))

/-- The parent the claim expects for a body: its `moon_of` target when that
ID is present in the same system's body map, otherwise the system center. -/
def expectedParent (planets : List (List Char × PlanetRec)) (bodies : List (List Char))
    (b : List Char) : ParentRef :=
  match bodyMoonOf planets b with
  | some p => if bodies.any (fun k => k == p) then ParentRef.body p else ParentRef.center
  | none => ParentRef.center

/-! ## Body-kind counting (`parse_stellaris_save`, counts loop) -/

/-- The four body kinds of the counts loop. -/
inductive BodyKind where
  | star
  | asteroid
  | moon
  | planet
deriving DecidableEq

/-- The fixed priority classification of the counts loop: star-class
substring test first, then the asteroid class, then the `moon_of` flag,
else planet. -/
def classifyBody (p : PlanetRec) : BodyKind :=
  let cls := p.planetClass.getD []
  if isSubstr ("_star".toList) cls || isSubstr ("hole".toList) cls ||
      isSubstr ("pulsar".toList) cls then
    BodyKind.star
  else if cls = ("pc_asteroid".toList) then BodyKind.asteroid
  else if p.moonOf.isSome then BodyKind.moon
  else BodyKind.planet

/-- The count accumulated for one kind over the planets dict. -/
def countKind (planets : List (List Char × PlanetRec)) (k : BodyKind) : Nat :=
  (planets.map (fun pr => pr.2)).countP (fun p => classifyBody p == k)

/-! ## Asteroid-belt pairing (`parse_block_content`) -/

/-- `r'asteroid_belts\s*=\s*{'`. -/
def beltsPat : List PatTok :=
  [.lit ("asteroid_belts".toList), .ws, .lit ("=".toList), .ws, .lit ("\x7b".toList)]

/-- `re.findall(r'type="([^"]+)"', ...)`. -/
def beltTypePat : List PatTok := [.lit ("type=\"".toList), .capQ]

/-- `re.findall(r'inner_radius=([-\d\.]+)', ...)`. -/
def beltRadiusPat : List PatTok := [.lit ("inner_radius=".toList), .capNum]

/-- The asteroid-belt portion of `parse_block_content`: extract the
`asteroid_belts` block, find all `type` and `inner_radius` occurrences, and
pair them index by index up to the shorter list. -/
def parseAsteroidBelts (blockText : List Char) : List (List Char × List Char) :=
  match nestedContent beltsPat blockText with
  | none => []
  | some beltContent =>
    let ts := patFindAll beltTypePat beltContent
    let rs := patFindAll beltRadiusPat beltContent
    (List.range (min ts.length rs.length)).map (fun i => (ts.getD i [], rs.getD i []))

/-- The per-body function underlying the first hierarchy pass. -/
def moonFun (planets : List (List Char × PlanetRec)) (bodies : List (List Char))
    (b : List Char) : Option (List Char × ParentRef) :=
  match bodyMoonOf planets b with
  | some p => if bodies.any (fun k => k == p) then some (b, ParentRef.body p) else none
  | none => none

/-- The per-body function underlying the second hierarchy pass. -/
def centerFun (planets : List (List Char × PlanetRec)) (bodies : List (List Char))
    (b : List Char) : Option (List Char × ParentRef) :=
  if !(moonAssignments planets bodies).any (fun a => a.1 == b) then
    some (b, ParentRef.center)
  else none

/-- Concrete star input for the C1 witness. -/
def starsW : List (List Char × StarRec) :=
  [(("5".toList), ⟨[("1".toList), ("2".toList)], ("S".toList)⟩)]

/-- Concrete planet input for the C1 witness: planet `1` and its moon `2`. -/
def planetsW : List (List Char × PlanetRec) :=
  [(("1".toList), ⟨none, none⟩), (("2".toList), ⟨some ("1".toList), none⟩)]

/-- The single system built from the C1 witness input. -/
def sysW : BuiltSystem :=
  ((buildGalaxyHierarchy starsW planetsW).1).headD ⟨[], [], [], []⟩

/-- Concrete star input for the C6 witness and the C1/C6 counterexamples. -/
def starsBadW : List (List Char × StarRec) :=
  [(("5".toList), ⟨[("1".toList)], ("S".toList)⟩)]

/-- A planet whose `moon_of` names the absent ID `99`. -/
def planetsDanglingW : List (List Char × PlanetRec) :=
  [(("1".toList), ⟨some ("99".toList), none⟩)]

/-- The single system built from the dangling-reference input. -/
def sysW6 : BuiltSystem :=
  ((buildGalaxyHierarchy starsBadW planetsDanglingW).1).headD ⟨[], [], [], []⟩

/-! ## Claim statements used for refutation -/

/-- Claim C1 as stated: in every built system, every body of the body map
has exactly one parent assignment, equal to the expected parent; the root's
nesting level is 0; and every body's nesting level is defined and equal to
its parent's nesting level plus one. -/
abbrev claim1Statement (stars : List (List Char × StarRec))
    (planets : List (List Char × PlanetRec)) : Prop :=
  ∀ s ∈ (buildGalaxyHierarchy stars planets).1, ∀ b ∈ s.bodies,
    s.parents.countP (fun a => a.1 == b) = 1 ∧
    sysParentOf s b = expectedParent planets s.bodies b ∧
    sysLevelOf s ParentRef.center = some 0 ∧
    (sysLevelOf s (ParentRef.body b)).isSome ∧
    sysLevelOf s (ParentRef.body b) = (sysLevelOf s (sysParentOf s b)).map (fun m => m + 1)

/-- Claim C5 as stated: whenever the extracted key of a template exists
verbatim in the localization table, `resolve_name` returns the table's
value, regardless of other template content and context. -/
def claim5Statement (loc : List (List Char × List Char)) : Prop :=
  ∀ text key v sc pn, extractedKey text = some key → locLookup loc key = some v →
    resolveName loc text sc pn = v

/-- Claim C6 as stated, at one input: a body whose `moon_of` points to an
absent ID is attached to the system center, and a diagnostic specific to
the inconsistency is emitted (some printed line mentions the missing ID). -/
abbrev claim6Statement (stars : List (List Char × StarRec))
    (planets : List (List Char × PlanetRec)) (b missingId : List Char) : Prop :=
  (∀ s ∈ (buildGalaxyHierarchy stars planets).1,
    b ∈ s.bodies → sysParentOf s b = ParentRef.center) ∧
  (∃ d ∈ (buildGalaxyHierarchy stars planets).2, isSubstr missingId d = true)

/-! ## Theorems: brace-block extraction (C3) -/

theorem braceDelta_nil : braceDelta [] = 0 := by
  simp [braceDelta]

theorem charDelta_cases (c : Char) : charDelta c = 1 ∨ charDelta c = -1 ∨ charDelta c = 0 := by
  unfold charDelta
  split_ifs <;> simp

theorem charDelta_eq_neg_iff (c : Char) : charDelta c = -1 ↔ c = '}' := by
  unfold charDelta
  split_ifs with h1 h2 <;> simp_all

theorem braceDelta_cons (c : Char) (l : List Char) :
    braceDelta (c :: l) = charDelta c + braceDelta l := by
  by_cases h1 : c = '{'
  · subst h1
    simp [braceDelta, charDelta, List.count_cons]
    ring
  · by_cases h2 : c = '}'
    · subst h2
      simp [braceDelta, charDelta, List.count_cons, h1]
      ring
    · simp [braceDelta, charDelta, List.count_cons, h1, h2]

theorem braceDelta_append (a b : List Char) :
    braceDelta (a ++ b) = braceDelta a + braceDelta b := by
  simp [braceDelta, List.count_append]
  ring

theorem getD_drop (t : List Char) (n m : Nat) (d : Char) :
    (t.drop n).getD m d = t.getD (n + m) d := by
  induction t generalizing n m with
  | nil => simp
  | cons c rest ih =>
    cases n with
    | zero => simp
    | succ n' =>
      have : (n' + 1 + m) = (n' + m) + 1 := by omega
      simp only [List.drop_succ_cons, this, List.getD_cons_succ]
      exact ih n' m

theorem braceScanAux_some (l : List Char) : ∀ (i : Nat) (lvl : Int) (j : Nat),
    1 ≤ lvl → braceScanAux l i lvl = some j →
    ∃ k, j = i + k ∧ k < l.length ∧ l.getD k 'x' = '}' ∧
      lvl + braceDelta (l.take k) = 1 ∧
      ∀ m, m ≤ k → 1 ≤ lvl + braceDelta (l.take m) := by
  induction l with
  | nil =>
    intro i lvl j _ h
    simp [braceScanAux] at h
  | cons c rest ih =>
    intro i lvl j hlvl h
    simp only [braceScanAux] at h
    by_cases h0 : lvl + charDelta c = 0
    · rw [if_pos h0] at h
      have hij : j = i := by
        cases h
        rfl
      have hcd : charDelta c = -1 := by
        rcases charDelta_cases c with hc | hc | hc <;> omega
      have hlvl1 : lvl = 1 := by omega
      refine ⟨0, by omega, by simp, ?_, ?_, ?_⟩
      · simpa using (charDelta_eq_neg_iff c).mp hcd
      · simp [braceDelta_nil, hlvl1]
      · intro m hm
        have : m = 0 := by omega
        simp [this, braceDelta_nil]
        omega
    · rw [if_neg h0] at h
      have hlvl' : 1 ≤ lvl + charDelta c := by
        rcases charDelta_cases c with hc | hc | hc <;> omega
      obtain ⟨k, hk1, hk2, hk3, hk4, hk5⟩ := ih (i + 1) _ j hlvl' h
      refine ⟨k + 1, by omega, by simpa using by omega, ?_, ?_, ?_⟩
      · simpa using hk3
      · rw [List.take_succ_cons, braceDelta_cons]
        omega
      · intro m hm
        cases m with
        | zero =>
          simp [braceDelta_nil]
          omega
        | succ m' =>
          rw [List.take_succ_cons, braceDelta_cons]
          have := hk5 m' (by omega)
          omega

theorem braceScanAux_none (l : List Char) : ∀ (i : Nat) (lvl : Int),
    1 ≤ lvl → braceScanAux l i lvl = none →
    ∀ m, m ≤ l.length → 1 ≤ lvl + braceDelta (l.take m) := by
  induction l with
  | nil =>
    intro i lvl hlvl _ m hm
    have : m = 0 := by simpa using hm
    simp [this, braceDelta_nil]
    omega
  | cons c rest ih =>
    intro i lvl hlvl h m hm
    simp only [braceScanAux] at h
    by_cases h0 : lvl + charDelta c = 0
    · rw [if_pos h0] at h
      cases h
    · rw [if_neg h0] at h
      have hlvl' : 1 ≤ lvl + charDelta c := by
        rcases charDelta_cases c with hc | hc | hc <;> omega
      cases m with
      | zero =>
        simp [braceDelta_nil]
        omega
      | succ m' =>
        rw [List.take_succ_cons, braceDelta_cons]
        have := ih (i + 1) _ hlvl' h m' (by simpa using hm)
        omega

theorem braceDelta_singleton (c : Char) : braceDelta [c] = charDelta c := by
  rw [braceDelta_cons, braceDelta_nil]
  ring

theorem take_succ_getD (l : List Char) : ∀ (k : Nat), k < l.length →
    l.take (k + 1) = l.take k ++ [l.getD k 'x'] := by
  induction l with
  | nil => intro k hk; simp at hk
  | cons c rest ih =>
    intro k hk
    cases k with
    | zero => simp
    | succ k' =>
      simp only [List.take_succ_cons, List.getD_cons_succ, List.cons_append]
      rw [ih k' (by simpa using hk)]

/-- Success case of `_get_nested_block_content`: the returned content is
exactly the text strictly between the first `{` at or after the match start
and its matching `}` (the first position where the depth counter returns to
zero), and the returned span bounds locate that block. -/
theorem getNested_some_spec (pat : List PatTok) (text : List Char) (i0 : Nat)
    (c : List Char) (s e : Int)
    (h : getNestedBlockContent pat text i0 = (some c, s, e)) :
    ∃ (mStart bPos j : Nat),
      patSearchStart pat (text.drop i0) = some mStart ∧
      charIndexFrom text '{' (i0 + mStart) = some bPos ∧
      s = ((i0 + mStart : Nat) : Int) ∧ e = (j : Int) + 1 ∧
      bPos < j ∧ j < text.length ∧
      c = pySlice text (bPos + 1) j ∧
      text.getD j 'x' = '}' ∧
      braceDelta c = 0 ∧
      (∀ m, bPos + 1 ≤ m → m ≤ j → 1 ≤ (1 : Int) + braceDelta (pySlice text (bPos + 1) m)) := by
  unfold getNestedBlockContent at h
  cases hs : patSearchStart pat (text.drop i0) with
  | none => simp [hs] at h
  | some mStart =>
    cases hb : charIndexFrom text '{' (i0 + mStart) with
    | none => simp [hs, hb] at h
    | some bPos =>
      cases hscan : braceScanAux (text.drop (bPos + 1)) (bPos + 1) 1 with
      | none => simp [hs, hb, hscan] at h
      | some j =>
        simp only [hs, hb, hscan, Prod.mk.injEq, Option.some.injEq] at h
        obtain ⟨hc, hsv, hev⟩ := h
        obtain ⟨k, hk1, hk2, hk3, hk4, hk5⟩ :=
          braceScanAux_some (text.drop (bPos + 1)) (bPos + 1) 1 j (by omega) hscan
        have hlen : (text.drop (bPos + 1)).length = text.length - (bPos + 1) := by
          simp
        refine ⟨mStart, bPos, j, rfl, hb, hsv.symm, hev.symm, by omega, by omega, hc.symm, ?_,
          ?_, ?_⟩
        · have hgd : text.getD j 'x' = (text.drop (bPos + 1)).getD k 'x' := by
            rw [getD_drop]
            congr 1
          rw [hgd, hk3]
        · have hcv : c = (text.drop (bPos + 1)).take k := by
            rw [← hc]
            unfold pySlice
            congr 1
            omega
          rw [hcv]
          omega
        · intro m hm1 hm2
          have hge := hk5 (m - (bPos + 1)) (by omega)
          unfold pySlice
          exact hge

/-- Failure case: no pattern match means the not-found triple. -/
theorem getNested_none_of_no_match (pat : List PatTok) (text : List Char) (i0 : Nat)
    (h : patSearchStart pat (text.drop i0) = none) :
    getNestedBlockContent pat text i0 = (none, -1, -1) := by
  unfold getNestedBlockContent
  simp [h]

/-- Failure case: if after the opening brace the depth counter never returns
to zero before the end of input (unbalanced braces), the extractor returns
the not-found triple rather than a truncated span. -/
theorem getNested_none_of_unbalanced (pat : List PatTok) (text : List Char) (i0 : Nat)
    (mStart bPos : Nat)
    (hs : patSearchStart pat (text.drop i0) = some mStart)
    (hb : charIndexFrom text '{' (i0 + mStart) = some bPos)
    (hunb : ∀ m, bPos + 1 ≤ m → m ≤ text.length →
      (1 : Int) + braceDelta (pySlice text (bPos + 1) m) ≠ 0) :
    getNestedBlockContent pat text i0 = (none, -1, -1) := by
  unfold getNestedBlockContent
  cases hscan : braceScanAux (text.drop (bPos + 1)) (bPos + 1) 1 with
  | none => simp [hs, hb, hscan]
  | some j =>
    exfalso
    obtain ⟨k, hk1, hk2, hk3, hk4, hk5⟩ :=
      braceScanAux_some (text.drop (bPos + 1)) (bPos + 1) 1 j (by omega) hscan
    have hlen : (text.drop (bPos + 1)).length = text.length - (bPos + 1) := by
      simp
    have hzero : (1 : Int) + braceDelta ((text.drop (bPos + 1)).take (k + 1)) = 0 := by
      rw [take_succ_getD _ k hk2, braceDelta_append, braceDelta_singleton,
        (charDelta_eq_neg_iff _).mpr hk3]
      omega
    apply hunb (bPos + 1 + (k + 1)) (by omega) (by omega)
    unfold pySlice
    have hsub : bPos + 1 + (k + 1) - (bPos + 1) = k + 1 := by omega
    rw [hsub]
    exact hzero

/-- Balanced output: extracted content has equal brace counts. -/
theorem getNested_balanced (pat : List PatTok) (text : List Char) (i0 : Nat)
    (c : List Char) (s e : Int)
    (h : getNestedBlockContent pat text i0 = (some c, s, e)) :
    c.count '{' = c.count '}' := by
  obtain ⟨_, _, _, _, _, _, _, _, _, _, _, hd, _⟩ := getNested_some_spec pat text i0 c s e h
  unfold braceDelta at hd
  omega

/-- Recursive calls of the resolver shrink the text: extracted nested block
content is strictly shorter than the text it was extracted from. -/
theorem nestedContent_length_lt (pat : List PatTok) (text c : List Char)
    (h : nestedContent pat text = some c) : c.length < text.length := by
  unfold nestedContent at h
  rcases hg : getNestedBlockContent pat text 0 with ⟨o, s, e⟩
  rw [hg] at h
  simp only at h
  subst h
  obtain ⟨mStart, bPos, j, _, _, _, _, hbj, hjlen, hcv, _, _, _⟩ :=
    getNested_some_spec pat text 0 c s e hg
  rw [hcv]
  unfold pySlice
  simp only [List.length_take, List.length_drop]
  omega

/-! ## Theorems: the name resolver's recursion (C5, C7, C8) -/

theorem resolveFamilies_congr (r1 r2 : List Char → Option Nat → Option (List Char) → List Char)
    (loc : List (List Char × List Char)) (key vcontent : List Char) (sc : Option Nat)
    (pn : Option (List Char))
    (h : ∀ t s p, t.length < vcontent.length → r1 t s p = r2 t s p) :
    resolveFamilies r1 loc key vcontent sc pn = resolveFamilies r2 loc key vcontent sc pn := by
  unfold resolveFamilies
  split
  · cases hn : nestedContent nameVarPat vcontent with
    | none => rfl
    | some nvb =>
      have hr : r1 nvb sc none = r2 nvb sc none :=
        h _ _ _ (nestedContent_length_lt _ _ _ hn)
      simp only [hr]
  · split
    · cases hp : nestedContent parentVarPat vcontent with
      | none => rfl
      | some pvb =>
        cases hnm : nestedContent numeralVarPat vcontent with
        | none => rfl
        | some nvb =>
          have hr : r1 pvb sc none = r2 pvb sc none :=
            h _ _ _ (nestedContent_length_lt _ _ _ hp)
          simp only [hr]
    · split
      · cases hp : nestedContent parentVarPat vcontent with
        | none => rfl
        | some pvb =>
          have hr : r1 pvb sc none = r2 pvb sc none :=
            h _ _ _ (nestedContent_length_lt _ _ _ hp)
          simp only [hr]
      · rfl

theorem resolveStep_congr (r1 r2 : List Char → Option Nat → Option (List Char) → List Char)
    (loc : List (List Char × List Char)) (text : List Char) (sc : Option Nat)
    (pn : Option (List Char))
    (h : ∀ t s p, t.length < text.length → r1 t s p = r2 t s p) :
    resolveStep r1 loc text sc pn = resolveStep r2 loc text sc pn := by
  unfold resolveStep
  split
  · rfl
  · cases hhab : habitatResult loc text with
    | some r => rfl
    | none =>
      cases hkey : extractedKey text with
      | none => rfl
      | some key =>
        cases hvc : nestedContent varsPat text with
        | none => rfl
        | some vcontent =>
          show (if keyFamilyCond key && !vcontent.isEmpty then
              resolveFamilies r1 loc key vcontent sc pn
            else afterFamily loc key) =
            (if keyFamilyCond key && !vcontent.isEmpty then
              resolveFamilies r2 loc key vcontent sc pn
            else afterFamily loc key)
          split
          · apply resolveFamilies_congr
            intro t s p ht
            exact h t s p (lt_trans ht (nestedContent_length_lt _ _ _ hvc))
          · rfl

theorem resolveNameGo_congr (loc : List (List Char × List Char)) : ∀ (N : Nat)
    (text : List Char), text.length ≤ N → ∀ (n m : Nat) (sc : Option Nat)
    (pn : Option (List Char)), text.length < n → text.length < m →
    resolveNameGo loc n text sc pn = resolveNameGo loc m text sc pn := by
  intro N
  induction N with
  | zero =>
    intro text hN n m sc pn hn hm
    have htext : text = [] := List.length_eq_zero.mp (by omega)
    subst htext
    cases n with
    | zero => omega
    | succ n' =>
      cases m with
      | zero => omega
      | succ m' => rfl
  | succ N ih =>
    intro text hN n m sc pn hn hm
    cases n with
    | zero => omega
    | succ n' =>
      cases m with
      | zero => omega
      | succ m' =>
        show resolveStep _ loc text sc pn = resolveStep _ loc text sc pn
        apply resolveStep_congr
        intro t s p ht
        exact ih t (by omega) n' m' s p (by omega) (by omega)

/-- Any fuel beyond the text length computes `resolve_name`'s value. -/
theorem resolveNameGo_eq_resolveName (loc : List (List Char × List Char)) (text : List Char)
    (sc : Option Nat) (pn : Option (List Char)) (n : Nat) (hn : text.length < n) :
    resolveNameGo loc n text sc pn = resolveName loc text sc pn :=
  resolveNameGo_congr loc text.length text le_rfl n (text.length + 1) sc pn hn (by omega)

/-- **C7**: `resolve_name` terminates on every input template, including
self-referential or malformed input: each recursive call operates on a
strictly smaller nested substring, so the recursion depth is bounded by the
template's own brace nesting — any fuel beyond the text's length computes
one and the same value — and an extraction failure (e.g. an empty template)
yields the fallback string `"Unknown"` rather than looping or raising.
Totality itself is witnessed by `resolveName` being a total Lean function. -/
theorem resolveName_terminates :
    (∀ (pat : List PatTok) (t c : List Char), nestedContent pat t = some c →
      c.length < t.length) ∧
    (∀ (loc : List (List Char × List Char)) (n m : Nat) (text : List Char)
      (sc : Option Nat) (pn : Option (List Char)), text.length < n → text.length < m →
      resolveNameGo loc n text sc pn = resolveNameGo loc m text sc pn) ∧
    (∀ (loc : List (List Char × List Char)) (sc : Option Nat) (pn : Option (List Char)),
      resolveName loc [] sc pn = ("Unknown".toList)) := by
  refine ⟨nestedContent_length_lt, ?_, ?_⟩
  · intro loc n m text sc pn hn hm
    exact (resolveNameGo_eq_resolveName loc text sc pn n hn).trans
      (resolveNameGo_eq_resolveName loc text sc pn m hm).symm
  · intro loc sc pn
    rfl

/-- Witness for C7 at concrete inputs. -/
theorem resolveName_terminates_witness :
    ("abc".toList).length < ("variables=\x7babc\x7d".toList).length ∧
    resolveNameGo [] 5 ("ab".toList) none none = resolveNameGo [] 99 ("ab".toList) none none :=
  ⟨resolveName_terminates.1 varsPat ("variables=\x7babc\x7d".toList) ("abc".toList) (by decide),
   resolveName_terminates.2.1 [] 5 99 ("ab".toList) none none (by decide) (by decide)⟩

theorem resolveStep_eq_afterFamily
    (recur : List Char → Option Nat → Option (List Char) → List Char)
    (loc : List (List Char × List Char)) (text key : List Char) (sc : Option Nat)
    (pn : Option (List Char))
    (htne : text.isEmpty = false) (hhab : habitatResult loc text = none)
    (hkey : extractedKey text = some key)
    (hfam : keyFamilyCond key = false ∨ optTruthy (nestedContent varsPat text) = false) :
    resolveStep recur loc text sc pn = afterFamily loc key := by
  unfold resolveStep
  simp only [htne, Bool.false_eq_true, if_false, hhab, hkey]
  cases hvc : nestedContent varsPat text with
  | none => rfl
  | some vc =>
    have hcond : (keyFamilyCond key && !vc.isEmpty) = false := by
      rcases hfam with hf | hf
      · simp [hf]
      · rw [hvc] at hf
        simp only [optTruthy] at hf
        simp [hf]
    simp only [hcond, Bool.false_eq_true, if_false]

theorem extractedKey_nil : extractedKey ([] : List Char) = none := by
  decide

theorem text_nonempty_of_key (text key : List Char) (hkey : extractedKey text = some key) :
    text.isEmpty = false := by
  cases text with
  | nil => rw [extractedKey_nil] at hkey; cases hkey
  | cons a l => rfl

/-- **C5** (corrected/amended): if the extracted (and `$`-stripped) key of a
template exists verbatim in the localization table, `resolve_name` returns
exactly the table's value — provided the habitat special case does not fire
and the template does not select a parametric-family expansion (a
star/colony/`_NAME_FORMAT` key together with a truthy `variables` block).
Those two earlier branches take precedence over the table lookup, so the
claim's "regardless of any other content" is false as stated. -/
theorem resolve_literal_key (loc : List (List Char × List Char)) (text key v : List Char)
    (sc : Option Nat) (pn : Option (List Char))
    (hhab : habitatResult loc text = none)
    (hkey : extractedKey text = some key)
    (hfam : keyFamilyCond key = false ∨ optTruthy (nestedContent varsPat text) = false)
    (hloc : locLookup loc key = some v) :
    resolveName loc text sc pn = v := by
  have htne := text_nonempty_of_key text key hkey
  show resolveStep (fun t s p => resolveNameGo loc text.length t s p) loc text sc pn = v
  rw [resolveStep_eq_afterFamily _ loc text key sc pn htne hhab hkey hfam]
  unfold afterFamily
  rw [hloc]

/-- Witness for the amended C5 at a concrete template. -/
theorem resolve_literal_key_witness :
    resolveName [(("COOL".toList), ("Nice".toList))] ("key=\"COOL\" noise".toList) none none
      = ("Nice".toList) :=
  resolve_literal_key _ _ ("COOL".toList) _ none none (by decide) (by decide)
    (Or.inl (by decide)) (by decide)

/-- **C5** counterexample: a template whose extracted key `STAR_NAME_X` is
in the localization table but which carries a non-empty `variables` block
resolves to `"Unknown Star"`, not to the table value — the parametric-family
branch preempts the table lookup, refuting the claim as stated. -/
theorem resolve_literal_key_counterexample :
    ¬ claim5Statement [(("STAR_NAME_X".toList), ("TableValue".toList))] := by
  intro h
  have hc := h ("key=\"STAR_NAME_X\" variables=\x7b junk \x7d".toList) ("STAR_NAME_X".toList)
    ("TableValue".toList) none none (by decide) (by decide)
  exact absurd hc (by decide)

theorem star_not_colony (key : List Char)
    (h : ("STAR_NAME_".toList).isPrefixOf key = true) :
    ("NEW_COLONY_NAME".toList).isPrefixOf key = false := by
  cases key with
  | nil => exact absurd h (by decide)
  | cons a l =>
    have ha : a = 'S' := by
      rw [show ("STAR_NAME_".toList) = 'S' :: ("TAR_NAME_".toList) from rfl] at h
      simp [List.isPrefixOf] at h
      exact h.1.symm
    subst ha
    rw [show ("NEW_COLONY_NAME".toList) = 'N' :: ("EW_COLONY_NAME".toList) from rfl]
    simp [List.isPrefixOf]

/-- The star-name branch of the resolver, symbolically: under the branch's
guards, the result is the recursively resolved `NAME` variable with the
two-star-of-N letter appended exactly when the pattern matches and the
ambient star count exceeds 1. -/
theorem resolveName_star_branch (loc : List (List Char × List Char))
    (text vc nvb key : List Char) (sc : Option Nat) (pn : Option (List Char))
    (hhab : habitatResult loc text = none)
    (hkey : extractedKey text = some key)
    (hstar : ("STAR_NAME_".toList).isPrefixOf key = true)
    (hvc : nestedContent varsPat text = some vc) (hvcne : vc.isEmpty = false)
    (hnvb : nestedContent nameVarPat vc = some nvb) (hnvbne : nvb.isEmpty = false) :
    resolveName loc text sc pn =
      (match starNameMatch key, sc with
       | some nn, some c =>
         if 1 < c then
           if 1 ≤ nn.1 && nn.1 ≤ 3 then
             resolveName loc nvb sc none ++ [' ', (['A', 'B', 'C']).getD (nn.1 - 1) 'A']
           else resolveName loc nvb sc none
         else resolveName loc nvb sc none
       | _, _ => resolveName loc nvb sc none) := by
  have htne := text_nonempty_of_key text key hkey
  have hcol := star_not_colony key hstar
  have hfamc : keyFamilyCond key = true := by
    unfold keyFamilyCond
    rw [hstar]
    simp
  have hb : resolveNameGo loc text.length nvb sc none = resolveName loc nvb sc none :=
    resolveNameGo_eq_resolveName loc nvb sc none text.length
      (lt_trans (nestedContent_length_lt _ _ _ hnvb) (nestedContent_length_lt _ _ _ hvc))
  show resolveStep (fun t s p => resolveNameGo loc text.length t s p) loc text sc pn = _
  unfold resolveStep
  simp only [htne, Bool.false_eq_true, if_false, hhab, hkey, hvc]
  have hcond : (keyFamilyCond key && !vc.isEmpty) = true := by
    simp [hfamc, hvcne]
  simp only [hcond, if_true]
  unfold resolveFamilies
  simp only [hstar, Bool.true_or, if_true, hnvb, hnvbne, hcol, Bool.false_eq_true, if_false]
  rw [hb]

/-- **C8**: a star-name template with key `STAR_NAME_1_OF_2` whose `NAME`
variable resolves to `"Sol"` resolves to `"Sol A"` under star-count context
2, and `STAR_NAME_2_OF_2` to `"Sol B"`; when the star-count context is not
greater than 1, or no two-star-of-N pattern is present in the key, the base
name is returned unchanged. -/
theorem star_name_letters :
    (∀ (loc : List (List Char × List Char)) (text vc nvb : List Char)
        (pn : Option (List Char)),
      habitatResult loc text = none →
      extractedKey text = some ("STAR_NAME_1_OF_2".toList) →
      nestedContent varsPat text = some vc → vc.isEmpty = false →
      nestedContent nameVarPat vc = some nvb → nvb.isEmpty = false →
      resolveName loc nvb (some 2) none = ("Sol".toList) →
      resolveName loc text (some 2) pn = ("Sol A".toList)) ∧
    (∀ (loc : List (List Char × List Char)) (text vc nvb : List Char)
        (pn : Option (List Char)),
      habitatResult loc text = none →
      extractedKey text = some ("STAR_NAME_2_OF_2".toList) →
      nestedContent varsPat text = some vc → vc.isEmpty = false →
      nestedContent nameVarPat vc = some nvb → nvb.isEmpty = false →
      resolveName loc nvb (some 2) none = ("Sol".toList) →
      resolveName loc text (some 2) pn = ("Sol B".toList)) ∧
    (∀ (loc : List (List Char × List Char)) (text vc nvb key : List Char)
        (pn : Option (List Char)) (c : Nat), c ≤ 1 →
      habitatResult loc text = none →
      extractedKey text = some key →
      ("STAR_NAME_".toList).isPrefixOf key = true →
      nestedContent varsPat text = some vc → vc.isEmpty = false →
      nestedContent nameVarPat vc = some nvb → nvb.isEmpty = false →
      resolveName loc text (some c) pn = resolveName loc nvb (some c) none) ∧
    (∀ (loc : List (List Char × List Char)) (text vc nvb key : List Char)
        (sc : Option Nat) (pn : Option (List Char)),
      starNameMatch key = none →
      habitatResult loc text = none →
      extractedKey text = some key →
      ("STAR_NAME_".toList).isPrefixOf key = true →
      nestedContent varsPat text = some vc → vc.isEmpty = false →
      nestedContent nameVarPat vc = some nvb → nvb.isEmpty = false →
      resolveName loc text sc pn = resolveName loc nvb sc none) := by
  refine ⟨?_, ?_, ?_, ?_⟩
  · intro loc text vc nvb pn hhab hkey hvc hvcne hnvb hnvbne hbase
    rw [resolveName_star_branch loc text vc nvb _ (some 2) pn hhab hkey (by decide) hvc hvcne
      hnvb hnvbne]
    rw [show starNameMatch ("STAR_NAME_1_OF_2".toList) = some (1, 2) from by decide]
    simp [hbase]
  · intro loc text vc nvb pn hhab hkey hvc hvcne hnvb hnvbne hbase
    rw [resolveName_star_branch loc text vc nvb _ (some 2) pn hhab hkey (by decide) hvc hvcne
      hnvb hnvbne]
    rw [show starNameMatch ("STAR_NAME_2_OF_2".toList) = some (2, 2) from by decide]
    simp [hbase]
  · intro loc text vc nvb key pn c hc hhab hkey hstar hvc hvcne hnvb hnvbne
    rw [resolveName_star_branch loc text vc nvb key (some c) pn hhab hkey hstar hvc hvcne
      hnvb hnvbne]
    cases hsm : starNameMatch key with
    | none => rfl
    | some nn =>
      have : ¬ 1 < c := by omega
      simp [this]
  · intro loc text vc nvb key sc pn hsm hhab hkey hstar hvc hvcne hnvb hnvbne
    rw [resolveName_star_branch loc text vc nvb key sc pn hhab hkey hstar hvc hvcne
      hnvb hnvbne]
    rw [hsm]

/-- Witness for C8: the concrete `Sol` two-star template. -/
theorem star_name_letters_witness :
    resolveName []
        (("key=\"STAR_NAME_1_OF_2\" variables=\x7b key=\"NAME\" value=\x7b key=\"Sol\" \x7d \x7d").toList)
        (some 2) none
      = ("Sol A".toList) :=
  star_name_letters.1 [] _ ((" key=\"NAME\" value=\x7b key=\"Sol\" \x7d ").toList)
    ((" key=\"Sol\" ").toList) none (by decide) (by decide) (by decide) (by decide) (by decide)
    (by decide) (by decide)

/-! ## Theorems: wormhole pairing (C4) -/

theorem listLt_asymm : ∀ (a b : List Char), listLt a b = true → listLt b a = false := by
  intro a
  induction a with
  | nil =>
    intro b h
    cases b with
    | nil => simp [listLt] at h
    | cons y ys => simp [listLt]
  | cons x xs ih =>
    intro b h
    cases b with
    | nil => simp [listLt] at h
    | cons y ys =>
      simp only [listLt] at h ⊢
      by_cases hxy : x < y
      · have h1 : ¬ y < x := lt_asymm hxy
        have h2 : ¬ y = x := by
          intro he
          subst he
          exact absurd hxy (lt_irrefl _)
        simp [h1, h2]
      · by_cases hxe : x = y
        · subst hxe
          have hred : listLt xs ys = true := by
            simpa [lt_irrefl] using h
          have hr := ih ys hred
          simp [lt_irrefl, hr]
        · simp [hxy, hxe] at h

theorem listLt_total_ne : ∀ (a b : List Char), a ≠ b →
    listLt a b = true ∨ listLt b a = true := by
  intro a
  induction a with
  | nil =>
    intro b hb
    cases b with
    | nil => exact absurd rfl hb
    | cons y ys =>
      left
      simp [listLt]
  | cons x xs ih =>
    intro b hb
    cases b with
    | nil =>
      right
      simp [listLt]
    | cons y ys =>
      rcases lt_trichotomy x y with h | h | h
      · left
        simp [listLt, h]
      · subst h
        have hxs : xs ≠ ys := by
          intro he
          subst he
          exact hb rfl
        rcases ih ys hxs with h1 | h1
        · left
          simp [listLt, lt_irrefl, h1]
        · right
          simp [listLt, lt_irrefl, h1]
      · right
        simp [listLt, h]

theorem sortPair_comm (a b : List Char) (h : a ≠ b) : sortPair b a = sortPair a b := by
  unfold sortPair
  rcases listLt_total_ne a b h with h1 | h1
  · have h2 := listLt_asymm a b h1
    simp [h1, h2]
  · have h2 := listLt_asymm b a h1
    simp [h1, h2]

/-- **C4**: two bypass records of type `wormhole`, mutually `linked_to` each
other and anchored via the bypass-to-system map to two distinct (truthy)
systems, produce exactly one `WormholePair` holding both system IDs in
sorted order; processing the two bypasses in the reverse iteration order
yields the identical single pair, so each bypass contributes to at most one
pair. -/
theorem wormhole_pair_unique (btsm : List (List Char × List Char)) (a b s1 s2 : List Char)
    (_hab : a ≠ b)
    (h1 : locLookup btsm a = some s1) (h2 : locLookup btsm b = some s2)
    (hs1 : s1.isEmpty = false) (hs2 : s2.isEmpty = false) (hss : s1 ≠ s2) :
    wormholePairs btsm [(a, mkWormholeRec b), (b, mkWormholeRec a)] = [sortPair s1 s2] ∧
    wormholePairs btsm [(b, mkWormholeRec a), (a, mkWormholeRec b)] = [sortPair s1 s2] := by
  constructor
  · simp [wormholePairs, wormholeLoop, mkWormholeRec, h1, h2, hs1, hs2]
  · rw [← sortPair_comm s1 s2 hss]
    simp [wormholePairs, wormholeLoop, mkWormholeRec, h1, h2, hs1, hs2]

/-- Witness for C4 at concrete bypasses, with the anchor map built by
`bypassToSystemMap` from two natural-wormhole records. -/
theorem wormhole_pair_unique_witness :
    wormholePairs
        (bypassToSystemMap
          [(("20".toList), ⟨none, none, some ("7".toList), some ("101".toList)⟩),
           (("21".toList), ⟨none, none, some ("8".toList), some ("44".toList)⟩)])
        [(("7".toList), mkWormholeRec ("8".toList)), (("8".toList), mkWormholeRec ("7".toList))]
      = [sortPair ("101".toList) ("44".toList)] ∧
    wormholePairs
        (bypassToSystemMap
          [(("20".toList), ⟨none, none, some ("7".toList), some ("101".toList)⟩),
           (("21".toList), ⟨none, none, some ("8".toList), some ("44".toList)⟩)])
        [(("8".toList), mkWormholeRec ("7".toList)), (("7".toList), mkWormholeRec ("8".toList))]
      = [sortPair ("101".toList) ("44".toList)] :=
  wormhole_pair_unique _ ("7".toList) ("8".toList) _ _ (by decide) (by decide) (by decide)
    (by decide) (by decide) (by decide)

/-! ## Theorems: asteroid-belt pairing (C9) and body-kind counts (C10) -/

/-- **C9**: for every asteroid-belt block the parser pairs the i-th `type`
occurrence with the i-th `inner_radius` occurrence and produces exactly
`min` (number of type occurrences) (number of radius occurrences) belt
descriptors, raising no error for unequal counts; a block without an
`asteroid_belts` section yields no descriptors. -/
theorem belt_pairing_truncates :
    (∀ (blockText bc : List Char), nestedContent beltsPat blockText = some bc →
      (parseAsteroidBelts blockText).length =
        min (patFindAll beltTypePat bc).length (patFindAll beltRadiusPat bc).length ∧
      ∀ i : Nat,
        i < min (patFindAll beltTypePat bc).length (patFindAll beltRadiusPat bc).length →
        (parseAsteroidBelts blockText).getD i ([], []) =
          ((patFindAll beltTypePat bc).getD i [], (patFindAll beltRadiusPat bc).getD i [])) ∧
    (∀ blockText : List Char, nestedContent beltsPat blockText = none →
      parseAsteroidBelts blockText = []) := by
  constructor
  · intro blockText bc h
    constructor
    · unfold parseAsteroidBelts
      rw [h]
      simp
    · intro i hi
      unfold parseAsteroidBelts
      rw [h]
      simp only [List.getD_eq_getElem?_getD, List.getElem?_map, List.getElem?_range, hi,
        if_pos, Option.map_some, Option.getD_some]
      simp
  · intro blockText h
    unfold parseAsteroidBelts
    rw [h]

/-- Witness for C9: a block with 3 `type` occurrences and 2 radius
occurrences yields exactly 2 paired descriptors. -/
theorem belt_pairing_truncates_witness :
    (parseAsteroidBelts ("x=1 asteroid_belts=\x7b b=\x7b type=\"rocky\" inner_radius=95 \x7d b=\x7b type=\"icy\" inner_radius=120.5 \x7d b=\x7b type=\"third\" \x7d \x7d".toList)).length = 2 := by
  have h := (belt_pairing_truncates.1
    ("x=1 asteroid_belts=\x7b b=\x7b type=\"rocky\" inner_radius=95 \x7d b=\x7b type=\"icy\" inner_radius=120.5 \x7d b=\x7b type=\"third\" \x7d \x7d".toList)
    (" b=\x7b type=\"rocky\" inner_radius=95 \x7d b=\x7b type=\"icy\" inner_radius=120.5 \x7d b=\x7b type=\"third\" \x7d ".toList)
    (by decide)).1
  rw [h]
  decide

/-- **C10**: every parsed planet record is counted under exactly one body
kind, decided in the fixed priority order (star-class substring test, then
the `pc_asteroid` class, then the `moon_of` flag, else planet), so the
star, asteroid, moon and planet counts sum to the total number of planet
records. -/
theorem body_counts_partition (planets : List (List Char × PlanetRec)) :
    countKind planets BodyKind.star + countKind planets BodyKind.asteroid +
      countKind planets BodyKind.moon + countKind planets BodyKind.planet
      = planets.length := by
  unfold countKind
  induction planets with
  | nil => rfl
  | cons pr rest ih =>
    simp only [List.map_cons, List.countP_cons, List.length_cons, List.countP_map] at ih ⊢
    rcases hcl : classifyBody pr.2 <;> simp [hcl] <;> omega

/-- **C3**: whenever the start pattern matches and a balanced brace block
follows the match, `_get_nested_block_content` returns the substring
strictly between the opening brace and its matching closing brace (the
first position where the depth counter returns to zero), and this content
has equal counts of opening and closing braces; when the pattern is absent,
or the braces never rebalance before end of input, it returns the NotFound
triple `(None, -1, -1)` rather than a truncated span. -/
theorem extractor_brace_balance :
    (∀ (pat : List PatTok) (text : List Char) (i0 : Nat) (c : List Char) (s e : Int),
      getNestedBlockContent pat text i0 = (some c, s, e) →
      c.count '{' = c.count '}') ∧
    (∀ (pat : List PatTok) (text : List Char) (i0 : Nat) (c : List Char) (s e : Int),
      getNestedBlockContent pat text i0 = (some c, s, e) →
      ∃ mStart bPos j : Nat,
        patSearchStart pat (text.drop i0) = some mStart ∧
        charIndexFrom text '{' (i0 + mStart) = some bPos ∧
        s = ((i0 + mStart : Nat) : Int) ∧ e = (j : Int) + 1 ∧ bPos < j ∧ j < text.length ∧
        c = pySlice text (bPos + 1) j ∧ text.getD j 'x' = '}' ∧
        (∀ m, bPos + 1 ≤ m → m ≤ j →
          1 ≤ (1 : Int) + braceDelta (pySlice text (bPos + 1) m))) ∧
    (∀ (pat : List PatTok) (text : List Char) (i0 : Nat),
      patSearchStart pat (text.drop i0) = none →
      getNestedBlockContent pat text i0 = (none, -1, -1)) ∧
    (∀ (pat : List PatTok) (text : List Char) (i0 mStart bPos : Nat),
      patSearchStart pat (text.drop i0) = some mStart →
      charIndexFrom text '{' (i0 + mStart) = some bPos →
      (∀ m, bPos + 1 ≤ m → m ≤ text.length →
        (1 : Int) + braceDelta (pySlice text (bPos + 1) m) ≠ 0) →
      getNestedBlockContent pat text i0 = (none, -1, -1)) := by
  refine ⟨getNested_balanced, ?_, getNested_none_of_no_match, getNested_none_of_unbalanced⟩
  intro pat text i0 c s e h
  obtain ⟨mS, bP, j, h1, h2, h3, h4, h5, h6, h7, h8, _, h10⟩ :=
    getNested_some_spec pat text i0 c s e h
  exact ⟨mS, bP, j, h1, h2, h3, h4, h5, h6, h7, h8, h10⟩

/-- Witness for C3: a balanced extraction and a pattern-absent failure. -/
theorem extractor_brace_balance_witness :
    ("a\x7b\x7dbc".toList).count '{' = ("a\x7b\x7dbc".toList).count '}' ∧
    getNestedBlockContent varsPat ("no brace block".toList) 0 = (none, -1, -1) :=
  ⟨extractor_brace_balance.1 varsPat ("variables=\x7ba\x7b\x7dbc\x7d".toList) 0
      ("a\x7b\x7dbc".toList) 0 17 (by decide),
   extractor_brace_balance.2.2.1 varsPat ("no brace block".toList) 0 (by decide)⟩

/-! ## Theorems: keyed section scanner (C2) -/

theorem sumDeltas_cons (l : List Char) (ls : List (List Char)) :
    sumDeltas (l :: ls) = braceDelta l + sumDeltas ls := by
  simp [sumDeltas]

theorem consumeBlock_spec (body : List (List Char)) : ∀ (rest : List (List Char)) (lvl : Int),
    body ≠ [] →
    (∀ i, i + 1 < body.length → 0 < lvl + sumDeltas (body.take (i + 1))) →
    lvl + sumDeltas body ≤ 0 →
    consumeBlock (body ++ rest) lvl = (body, rest) := by
  induction body with
  | nil =>
    intro rest lvl h _ _
    exact absurd rfl h
  | cons x xs ih =>
    intro rest lvl _ hmid hend
    cases xs with
    | nil =>
      have hx : lvl + braceDelta x ≤ 0 := by
        rw [sumDeltas_cons] at hend
        simp [sumDeltas] at hend
        omega
      simp [consumeBlock, hx]
    | cons y ys =>
      have hpos : 0 < lvl + braceDelta x := by
        have h0 := hmid 0 (by simp)
        rw [List.take_succ_cons, List.take_zero, sumDeltas_cons] at h0
        simp [sumDeltas] at h0
        omega
      have hrec := ih rest (lvl + braceDelta x) (by simp)
        (by
          intro i hi
          have := hmid (i + 1) (by simpa using hi)
          rw [List.take_succ_cons, sumDeltas_cons] at this
          omega)
        (by
          rw [sumDeltas_cons] at hend
          omega)
      have hxne : ¬ (lvl + braceDelta x ≤ 0) := by omega
      rw [List.cons_append, consumeBlock, if_neg hxne]
      rw [hrec]

theorem dictInsert_of_not_mem {α : Type} (m : List (List Char × α)) (k : List Char) (v : α)
    (h : m.any (fun q => q.1 == k) = false) : dictInsert m k v = m ++ [(k, v)] := by
  unfold dictInsert
  simp [h]

theorem pksAux_step {α : Type} (hdr : List Char → Option (List Char)) (p : List Char → α)
    (fuel : Nat) (l : List Char) (rest : List (List Char)) (acc : List (List Char × α)) :
    parseKeyedSectionAux hdr p (fuel + 1) (l :: rest) acc =
      (if trimWs l = ['}'] then acc
      else
        match hdr l with
        | none => parseKeyedSectionAux hdr p fuel rest acc
        | some id =>
          if isSubstr ("none".toList) l then parseKeyedSectionAux hdr p fuel rest acc
          else
            if braceDelta l ≤ 0 && l.contains '{' then
              parseKeyedSectionAux hdr p fuel rest (dictInsert acc id (p l))
            else
              parseKeyedSectionAux hdr p fuel (consumeBlock rest (braceDelta l)).2
                (dictInsert acc id
                  (p ((l :: (consumeBlock rest (braceDelta l)).1).flatten)))) := rfl

theorem pksAux_spec {α : Type} (tabs : Nat) (p : List Char → α) :
    ∀ (items : List SectionItem) (tail : List (List Char)) (acc : List (List Char × α))
      (fuel : Nat),
      (∀ it ∈ items, WfItem tabs it) →
      (items.filterMap (itemId tabs)).Nodup →
      (∀ id ∈ items.filterMap (itemId tabs), acc.any (fun q => q.1 == id) = false) →
      ((items.map itemLines).flatten ++ ['}'] :: tail).length < fuel →
      parseKeyedSectionAux (headerMatch tabs) p fuel
          ((items.map itemLines).flatten ++ ['}'] :: tail) acc
        = acc ++ items.filterMap (itemEntry tabs p) := by
  intro items
  induction items with
  | nil =>
    intro tail acc fuel _ _ _ hfuel
    simp only [List.map_nil, List.flatten_nil, List.nil_append, List.filterMap_nil,
      List.append_nil] at hfuel ⊢
    cases fuel with
    | zero => omega
    | succ f =>
      rw [pksAux_step, if_pos (by decide : trimWs ['}'] = ['}'])]
  | cons it rest ih =>
    intro tail acc fuel hwf hnd hdisj hfuel
    have hwfr : ∀ x ∈ rest, WfItem tabs x := fun x hx => hwf x (List.mem_cons_of_mem _ hx)
    cases fuel with
    | zero => omega
    | succ f =>
      cases it with
      | skipLine l =>
        obtain ⟨hids, hnone, hterm⟩ := hwf _ (List.mem_cons_self _ _)
        obtain ⟨id0, hid0⟩ := Option.isSome_iff_exists.mp hids
        have hids' : itemId tabs (SectionItem.skipLine l) = none := rfl
        have hent : itemEntry tabs p (SectionItem.skipLine l) = none := rfl
        rw [List.filterMap_cons_none hids'] at hnd hdisj
        simp only [List.map_cons, List.flatten_cons, itemLines, List.singleton_append,
          List.cons_append, List.nil_append] at hfuel ⊢
        rw [pksAux_step, if_neg hterm]
        simp only [hid0, hnone, if_true, List.filterMap_cons_none hent]
        exact ih tail acc f hwfr hnd hdisj (by simp at hfuel ⊢; omega)
      | single h =>
        obtain ⟨hids, hnone, hterm, hlvl, hbrace⟩ := hwf _ (List.mem_cons_self _ _)
        obtain ⟨id0, hid0⟩ := Option.isSome_iff_exists.mp hids
        have hids' : itemId tabs (SectionItem.single h) = some id0 := hid0
        have hent : itemEntry tabs p (SectionItem.single h) = some (id0, p h) := by
          simp [itemEntry, hid0]
        rw [List.filterMap_cons_some hids'] at hnd hdisj
        have hnotin : id0 ∉ rest.filterMap (itemId tabs) := (List.nodup_cons.mp hnd).1
        have hndr : (rest.filterMap (itemId tabs)).Nodup := (List.nodup_cons.mp hnd).2
        simp only [List.map_cons, List.flatten_cons, itemLines, List.singleton_append,
          List.cons_append, List.nil_append] at hfuel ⊢
        rw [pksAux_step, if_neg hterm]
        have hcond : (decide (braceDelta h ≤ 0) && h.contains '{') = true := by
          rw [decide_eq_true hlvl, hbrace]
          rfl
        simp only [hid0, hnone, Bool.false_eq_true, if_false, hcond, if_true]
        rw [dictInsert_of_not_mem acc id0 (p h) (hdisj id0 (List.mem_cons_self _ _))]
        rw [List.filterMap_cons_some hent]
        have hstep := ih tail (acc ++ [(id0, p h)]) f hwfr hndr
          (by
            intro id' hid'
            rw [List.any_append]
            have h1 := hdisj id' (List.mem_cons_of_mem _ hid')
            have h2 : (id0 == id') = false := by
              have hne : id0 ≠ id' := by
                intro he
                subst he
                exact hnotin hid'
              simp [hne]
            simp [h1, h2])
          (by simp at hfuel ⊢; omega)
        rw [hstep]
        simp
      | multi h b =>
        obtain ⟨hids, hnone, hterm, hlvl, hbne, hmid, hend⟩ := hwf _ (List.mem_cons_self _ _)
        obtain ⟨id0, hid0⟩ := Option.isSome_iff_exists.mp hids
        have hids' : itemId tabs (SectionItem.multi h b) = some id0 := hid0
        have hent : itemEntry tabs p (SectionItem.multi h b)
            = some (id0, p ((h :: b).flatten)) := by
          simp [itemEntry, hid0]
        rw [List.filterMap_cons_some hids'] at hnd hdisj
        have hnotin : id0 ∉ rest.filterMap (itemId tabs) := (List.nodup_cons.mp hnd).1
        have hndr : (rest.filterMap (itemId tabs)).Nodup := (List.nodup_cons.mp hnd).2
        simp only [List.map_cons, List.flatten_cons, itemLines, List.cons_append,
          List.nil_append] at hfuel ⊢
        rw [pksAux_step, if_neg hterm]
        have hcond : (decide (braceDelta h ≤ 0) && h.contains '{') = false := by
          have hd : decide (braceDelta h ≤ 0) = false := by
            simp only [decide_eq_false_iff_not]
            omega
          rw [hd]
          rfl
        have hcb : consumeBlock (b ++ ((rest.map itemLines).flatten ++ ['}'] :: tail))
            (braceDelta h) = (b, (rest.map itemLines).flatten ++ ['}'] :: tail) :=
          consumeBlock_spec b _ (braceDelta h) hbne (fun i hi => hmid i hi) hend
        rw [← List.append_assoc] at hcb
        simp only [hid0, hnone, Bool.false_eq_true, if_false, hcond, hcb]
        rw [dictInsert_of_not_mem acc id0 _ (hdisj id0 (List.mem_cons_self _ _))]
        rw [List.filterMap_cons_some hent]
        have hstep := ih tail (acc ++ [(id0, p ((h :: b).flatten))]) f hwfr hndr
          (by
            intro id' hid'
            rw [List.any_append]
            have h1 := hdisj id' (List.mem_cons_of_mem _ hid')
            have h2 : (id0 == id') = false := by
              have hne : id0 ≠ id' := by
                intro he
                subst he
                exact hnotin hid'
              simp [hne]
            simp [h1, h2])
          (by simp at hfuel ⊢; omega)
        rw [hstep]
        simp

/-- **C2**: for every line stream consisting of well-formed records at the
expected indent depth (with pairwise distinct captured IDs), interspersed
with `none`-sentinel header lines, followed by a closing-brace line and then
anything, `parse_keyed_section` returns exactly one map entry per record —
keyed by that record's own captured ID and holding the parsed record body —
regardless of each record's internal brace-nesting depth; the sentinel lines
are skipped entirely and scanning stops at the closing-brace line (the tail
beyond it is never consumed). -/
theorem keyed_section_scan {α : Type} (tabs : Nat) (p : List Char → α)
    (items : List SectionItem) (tail : List (List Char))
    (hwf : ∀ it ∈ items, WfItem tabs it)
    (hnd : (items.filterMap (itemId tabs)).Nodup) :
    parseKeyedSection (headerMatch tabs) p ((items.map itemLines).flatten ++ ['}'] :: tail)
      = items.filterMap (itemEntry tabs p) ∧
    (parseKeyedSection (headerMatch tabs) p
        ((items.map itemLines).flatten ++ ['}'] :: tail)).map Prod.fst
      = items.filterMap (itemId tabs) := by
  have h1 : parseKeyedSection (headerMatch tabs) p
      ((items.map itemLines).flatten ++ ['}'] :: tail)
      = items.filterMap (itemEntry tabs p) := by
    unfold parseKeyedSection
    exact pksAux_spec tabs p items tail [] _ hwf hnd (fun id _ => rfl) (by omega)
  refine ⟨h1, ?_⟩
  rw [h1, List.map_filterMap]
  congr 1
  funext it
  cases it with
  | single h => cases hm : headerMatch tabs h <;> simp [itemEntry, itemId, hm]
  | multi h b => cases hm : headerMatch tabs h <;> simp [itemEntry, itemId, hm]
  | skipLine l => simp [itemEntry, itemId]

/-- Witness for C2: a multi-line record, a single-line record and a skipped
`none` line, followed by the section terminator and an unconsumed tail. -/
theorem keyed_section_scan_witness :
    parseKeyedSection (headerMatch 1) (fun l => l)
        [("\t1=\x7b\n".toList), ("\t\tx=\x7b\x7d\n".toList), ("\t\x7d\n".toList),
         ("\t2=\x7b val=3 \x7d\n".toList), ("\t3=none\n".toList), ['}'],
         ("\t9=\x7b\x7d\n".toList)]
      = [(("1".toList), ("\t1=\x7b\n\t\tx=\x7b\x7d\n\t\x7d\n".toList)),
         (("2".toList), ("\t2=\x7b val=3 \x7d\n".toList))] := by
  have h := (keyed_section_scan 1 (fun l => l)
    [SectionItem.multi ("\t1=\x7b\n".toList) [("\t\tx=\x7b\x7d\n".toList), ("\t\x7d\n".toList)],
     SectionItem.single ("\t2=\x7b val=3 \x7d\n".toList),
     SectionItem.skipLine ("\t3=none\n".toList)]
    [("\t9=\x7b\x7d\n".toList)]
    (by
      intro it hit
      simp only [List.mem_cons, List.not_mem_nil, or_false] at hit
      rcases hit with rfl | rfl | rfl
      · exact ⟨by decide, by decide, by decide, by decide, by decide,
          (by
            intro i hi
            have h0 : i = 0 := by
              simp at hi
              omega
            subst h0
            decide), by decide⟩
      · exact ⟨by decide, by decide, by decide, by decide, by decide⟩
      · exact ⟨by decide, by decide, by decide⟩)
    (by decide)).1
  exact h.trans (by decide)

/-! ## Theorems: hierarchy construction (C1, C6) -/

theorem moonAssignments_eq (planets : List (List Char × PlanetRec))
    (bodies : List (List Char)) :
    moonAssignments planets bodies = bodies.filterMap (moonFun planets bodies) := rfl

theorem filter_map_eq_filterMap {α β : Type} (q : α → Bool) (f : α → β) (l : List α) :
    (l.filter q).map f = l.filterMap (fun x => if q x then some (f x) else none) := by
  induction l with
  | nil => rfl
  | cons a l ih => by_cases h : q a <;> simp [List.filter_cons, h, List.filterMap_cons, ih]

theorem centerAssignments_eq (planets : List (List Char × PlanetRec))
    (bodies : List (List Char)) :
    centerAssignments planets bodies = bodies.filterMap (centerFun planets bodies) := by
  unfold centerAssignments centerFun
  rw [filter_map_eq_filterMap]

theorem moonFun_key (planets : List (List Char × PlanetRec)) (bodies : List (List Char))
    (x : List Char) (e : List Char × ParentRef) (h : moonFun planets bodies x = some e) :
    e.1 = x := by
  unfold moonFun at h
  cases hmo : bodyMoonOf planets x with
  | none =>
    simp only [hmo] at h
    cases h
  | some p =>
    simp only [hmo] at h
    by_cases hany : bodies.any (fun k => k == p)
    · rw [if_pos hany] at h
      cases h
      rfl
    · rw [if_neg hany] at h
      cases h

theorem centerFun_key (planets : List (List Char × PlanetRec)) (bodies : List (List Char))
    (x : List Char) (e : List Char × ParentRef) (h : centerFun planets bodies x = some e) :
    e.1 = x := by
  unfold centerFun at h
  by_cases hany : !(moonAssignments planets bodies).any (fun a => a.1 == x)
  · rw [if_pos hany] at h
    cases h
    rfl
  · rw [if_neg hany] at h
    cases h

theorem countP_key_filterMap (g : List Char → Option (List Char × ParentRef))
    (hg : ∀ x e, g x = some e → e.1 = x) :
    ∀ (l : List (List Char)) (b : List Char), l.Nodup →
      (l.filterMap g).countP (fun e => e.1 == b) =
        if b ∈ l ∧ (g b).isSome then 1 else 0 := by
  intro l
  induction l with
  | nil =>
    intro b _
    simp
  | cons x xs ih =>
    intro b hnd
    rw [List.filterMap_cons]
    have hxs : xs.Nodup := (List.nodup_cons.mp hnd).2
    have hxnotin : x ∉ xs := (List.nodup_cons.mp hnd).1
    cases hx : g x with
    | none =>
      rw [ih b hxs]
      by_cases hbx : b = x
      · subst hbx
        simp [hx, hxnotin]
      · simp [List.mem_cons, hbx]
    | some e =>
      have he : e.1 = x := hg _ _ hx
      rw [List.countP_cons, ih b hxs]
      by_cases hbx : b = x
      · subst hbx
        simp [he, hx, hxnotin]
      · have hb1 : (e.1 == b) = false := by
          rw [he]
          exact beq_eq_false_iff_ne.mpr (Ne.symm hbx)
        simp [hb1, List.mem_cons, hbx]

theorem find?_key_filterMap_not_mem (g : List Char → Option (List Char × ParentRef))
    (hg : ∀ x e, g x = some e → e.1 = x) :
    ∀ (l : List (List Char)) (b : List Char), b ∉ l →
      (l.filterMap g).find? (fun e => e.1 == b) = none := by
  intro l
  induction l with
  | nil =>
    intro b _
    rfl
  | cons x xs ih =>
    intro b hb
    rw [List.filterMap_cons]
    have hbx : b ≠ x := fun he => hb (he ▸ List.mem_cons_self x xs)
    have hbxs : b ∉ xs := fun hm => hb (List.mem_cons_of_mem _ hm)
    cases hx : g x with
    | none => exact ih b hbxs
    | some e =>
      have he : e.1 = x := hg _ _ hx
      have hpe : (e.1 == b) = false := by
        rw [he]
        exact beq_eq_false_iff_ne.mpr (Ne.symm hbx)
      rw [List.find?_cons, hpe]
      · exact ih b hbxs

theorem find?_key_filterMap (g : List Char → Option (List Char × ParentRef))
    (hg : ∀ x e, g x = some e → e.1 = x) :
    ∀ (l : List (List Char)) (b : List Char), l.Nodup → b ∈ l →
      (l.filterMap g).find? (fun e => e.1 == b) = g b := by
  intro l
  induction l with
  | nil =>
    intro b _ hb
    cases hb
  | cons x xs ih =>
    intro b hnd hb
    rw [List.filterMap_cons]
    have hxs : xs.Nodup := (List.nodup_cons.mp hnd).2
    have hxnotin : x ∉ xs := (List.nodup_cons.mp hnd).1
    by_cases hbx : b = x
    · subst hbx
      cases hx : g b with
      | none => exact find?_key_filterMap_not_mem g hg xs b hxnotin
      | some e =>
        have he : e.1 = b := hg _ _ hx
        have hpe : (e.1 == b) = true := by simp [he]
        rw [List.find?_cons, hpe]
    · have hbxs : b ∈ xs := by
        rcases List.mem_cons.mp hb with h | h
        · exact absurd h hbx
        · exact h
      cases hx : g x with
      | none => exact ih b hxs hbxs
      | some e =>
        have he : e.1 = x := hg _ _ hx
        have hpe : (e.1 == b) = false := by
          rw [he]
          exact beq_eq_false_iff_ne.mpr (Ne.symm hbx)
        rw [List.find?_cons, hpe]
        · exact ih b hxs hbxs

theorem find?_append_some {α : Type} (p : α → Bool) (l₁ l₂ : List α) (x : α)
    (h : l₁.find? p = some x) : (l₁ ++ l₂).find? p = some x := by
  induction l₁ with
  | nil => cases h
  | cons a l ih =>
    show List.find? p (a :: (l ++ l₂)) = some x
    rw [List.find?_cons] at h ⊢
    cases hp : p a with
    | true => simp only [hp] at h ⊢; exact h
    | false => simp only [hp] at h ⊢; exact ih h

theorem find?_append_none {α : Type} (p : α → Bool) (l₁ l₂ : List α)
    (h : l₁.find? p = none) : (l₁ ++ l₂).find? p = l₂.find? p := by
  induction l₁ with
  | nil => rfl
  | cons a l ih =>
    show List.find? p (a :: (l ++ l₂)) = List.find? p l₂
    rw [List.find?_cons] at h ⊢
    cases hp : p a with
    | true => simp only [hp] at h; cases h
    | false => simp only [hp] at h ⊢; exact ih h

theorem moonAssignments_any_iff (planets : List (List Char × PlanetRec))
    (bodies : List (List Char)) (b : List Char) (hb : b ∈ bodies) :
    ((moonAssignments planets bodies).any (fun a => a.1 == b) = true)
      ↔ (moonFun planets bodies b).isSome = true := by
  rw [moonAssignments_eq]
  constructor
  · intro h
    obtain ⟨e, hme, hpe⟩ := List.any_eq_true.mp h
    obtain ⟨a, ha, hae⟩ := List.mem_filterMap.mp hme
    have hkey : e.1 = a := moonFun_key planets bodies a e hae
    have hab : a = b := by
      rw [← hkey]
      simpa using hpe
    subst hab
    rw [hae]
    rfl
  · intro h
    obtain ⟨e, he⟩ := Option.isSome_iff_exists.mp h
    have hkey : e.1 = b := moonFun_key planets bodies b e he
    exact List.any_eq_true.mpr ⟨e, List.mem_filterMap.mpr ⟨b, hb, he⟩, by simp [hkey]⟩

theorem parentTrace_countP (planets : List (List Char × PlanetRec))
    (bodies : List (List Char)) (b : List Char) (hnd : bodies.Nodup) (hb : b ∈ bodies) :
    (parentTrace planets bodies).countP (fun a => a.1 == b) = 1 := by
  unfold parentTrace
  rw [List.countP_append, moonAssignments_eq, centerAssignments_eq]
  rw [countP_key_filterMap (moonFun planets bodies) (moonFun_key planets bodies) bodies b hnd,
    countP_key_filterMap (centerFun planets bodies) (centerFun_key planets bodies) bodies b hnd]
  by_cases hm : (moonFun planets bodies b).isSome
  · have hany : (moonAssignments planets bodies).any (fun a => a.1 == b) = true :=
      (moonAssignments_any_iff planets bodies b hb).mpr hm
    have hc : centerFun planets bodies b = none := by
      unfold centerFun
      simp [hany]
    simp [hb, hm, hc]
  · have hany : (moonAssignments planets bodies).any (fun a => a.1 == b) = false := by
      rcases ha : (moonAssignments planets bodies).any (fun a => a.1 == b) with _ | _
      · rfl
      · exact absurd ((moonAssignments_any_iff planets bodies b hb).mp ha) hm
    have hc : centerFun planets bodies b = some (b, ParentRef.center) := by
      unfold centerFun
      simp [hany]
    simp [hb, hm, hc]

theorem parentOf_eq_expected (planets : List (List Char × PlanetRec))
    (bodies : List (List Char)) (b : List Char) (hnd : bodies.Nodup) (hb : b ∈ bodies) :
    parentOf planets bodies b = expectedParent planets bodies b := by
  unfold parentOf parentTrace
  cases hmf : moonFun planets bodies b with
  | some e =>
    have hfind : (moonAssignments planets bodies).find? (fun a => a.1 == b) = some e := by
      rw [moonAssignments_eq]
      rw [find?_key_filterMap (moonFun planets bodies) (moonFun_key planets bodies) bodies b
        hnd hb]
      exact hmf
    rw [find?_append_some _ _ _ _ hfind]
    unfold moonFun at hmf
    unfold expectedParent
    cases hmo : bodyMoonOf planets b with
    | none =>
      rw [hmo] at hmf
      simp at hmf
    | some p =>
      simp only [hmo] at hmf
      by_cases hany : bodies.any (fun k => k == p)
      · rw [if_pos hany] at hmf
        cases hmf
        simp [hany]
      · rw [if_neg hany] at hmf
        cases hmf
  | none =>
    have hfind : (moonAssignments planets bodies).find? (fun a => a.1 == b) = none := by
      rw [moonAssignments_eq]
      rw [find?_key_filterMap (moonFun planets bodies) (moonFun_key planets bodies) bodies b
        hnd hb]
      exact hmf
    rw [find?_append_none _ _ _ hfind]
    have hany : (moonAssignments planets bodies).any (fun a => a.1 == b) = false := by
      rcases ha : (moonAssignments planets bodies).any (fun a => a.1 == b) with _ | _
      · rfl
      · have hcontra := (moonAssignments_any_iff planets bodies b hb).mp ha
        rw [hmf] at hcontra
        simp at hcontra
    have hcf : centerFun planets bodies b = some (b, ParentRef.center) := by
      unfold centerFun
      simp [hany]
    have hfind2 : (centerAssignments planets bodies).find? (fun a => a.1 == b)
        = some (b, ParentRef.center) := by
      rw [centerAssignments_eq]
      rw [find?_key_filterMap (centerFun planets bodies) (centerFun_key planets bodies) bodies b
        hnd hb]
      exact hcf
    rw [hfind2]
    unfold moonFun at hmf
    unfold expectedParent
    cases hmo : bodyMoonOf planets b with
    | none => rfl
    | some p =>
      simp only [hmo] at hmf
      by_cases hany2 : bodies.any (fun k => k == p)
      · rw [if_pos hany2] at hmf
        cases hmf
      · simp [hany2]

theorem systemBodyIds_nodup (planets : List (List Char × PlanetRec))
    (pids : List (List Char)) : (systemBodyIds planets pids).Nodup := by
  unfold systemBodyIds
  suffices hgen : ∀ (l : List (List Char)) (acc : List (List Char)), acc.Nodup →
      (l.foldl
        (fun ks pid =>
          if (lookupPlanet planets pid).isSome then
            if ks.any (fun k => k == pid) then ks else ks ++ [pid]
          else ks) acc).Nodup by
    exact hgen pids [] List.nodup_nil
  intro l
  induction l with
  | nil =>
    intro acc h
    exact h
  | cons x xs ih =>
    intro acc h
    rw [List.foldl_cons]
    apply ih
    by_cases h1 : (lookupPlanet planets x).isSome
    · simp only [h1, if_true]
      by_cases h2 : acc.any (fun k => k == x)
      · simp [h2, h]
      · have hnotin : x ∉ acc := by
          intro hmem
          exact h2 (List.any_eq_true.mpr ⟨x, hmem, by simp⟩)
        simp only [h2, Bool.false_eq_true, if_false]
        rw [List.nodup_append]
        exact ⟨h, List.nodup_singleton x, by
          intro a ha hax
          rw [List.mem_singleton] at hax
          subst hax
          exact hnotin ha⟩
    · simp [h1, h]

theorem assignLevels_mem (planets : List (List Char × PlanetRec))
    (bodies : List (List Char)) : ∀ (fuel : Nat) (r : ParentRef) (lvl : Nat)
    (x : ParentRef) (k : Nat), (x, k) ∈ assignLevels planets bodies fuel r lvl →
    (x = r ∧ k = lvl) ∨ (∃ c, x = ParentRef.body c ∧ 1 ≤ k ∧
      (parentOf planets bodies c, k - 1) ∈ assignLevels planets bodies fuel r lvl) := by
  intro fuel
  induction fuel with
  | zero =>
    intro r lvl x k h
    simp [assignLevels] at h
    left
    exact h
  | succ f ih =>
    intro r lvl x k h
    rw [assignLevels] at h
    rcases List.mem_cons.mp h with he | hm
    · left
      exact ⟨congrArg Prod.fst he, congrArg Prod.snd he⟩
    · obtain ⟨c, hc, hsub⟩ := List.mem_flatMap.mp hm
      have hpc : parentOf planets bodies c = r := by
        have := (List.mem_filter.mp hc).2
        simpa using this
      rcases ih (ParentRef.body c) (lvl + 1) x k hsub with ⟨hx, hk⟩ | ⟨c', hx, hk1, hmem⟩
      · right
        refine ⟨c, hx, by omega, ?_⟩
        have hxc : x = ParentRef.body c := hx
        have : parentOf planets bodies c = r := hpc
        rw [assignLevels]
        apply List.mem_cons.mpr
        left
        rw [this]
        subst hk
        rfl
      · right
        refine ⟨c', hx, hk1, ?_⟩
        rw [assignLevels]
        exact List.mem_cons.mpr (Or.inr (List.mem_flatMap.mpr ⟨c, hc, hmem⟩))

theorem nestingTrace_center (planets : List (List Char × PlanetRec))
    (bodies : List (List Char)) :
    ((nestingTrace planets bodies).find? (fun e => e.1 == ParentRef.center)).map
        (fun e => e.2) = some 0 := by
  unfold nestingTrace
  rw [assignLevels, List.find?_cons]
  simp

/-- **C1** (corrected/amended): in every built system, every body of the
body map receives exactly one parent assignment — its `moon_of` target when
that ID is present in the same system's body map, otherwise the system
center — and it is never reassigned; the synthetic root's nesting level is
0; and every nesting level recorded for a body is one more than a level
recorded for its parent.  As literally stated the claim is false: a body
whose `moon_of` references form a cycle (e.g. a self-reference) is parented
but never visited by the level-assignment traversal, so it receives no
nesting level at all (see the counterexample). -/
theorem hierarchy_invariant (stars : List (List Char × StarRec))
    (planets : List (List Char × PlanetRec)) :
    ∀ s ∈ (buildGalaxyHierarchy stars planets).1, ∀ b ∈ s.bodies,
      s.parents.countP (fun a => a.1 == b) = 1 ∧
      sysParentOf s b = expectedParent planets s.bodies b ∧
      sysLevelOf s ParentRef.center = some 0 ∧
      (∀ k, (ParentRef.body b, k) ∈ s.levels →
        1 ≤ k ∧ (sysParentOf s b, k - 1) ∈ s.levels) := by
  intro s hs b hb
  obtain ⟨pr, _, rfl⟩ := List.mem_map.mp hs
  refine ⟨?_, ?_, ?_, ?_⟩
  · exact parentTrace_countP planets (systemBodyIds planets pr.2.planetIds) b
      (systemBodyIds_nodup _ _) hb
  · exact parentOf_eq_expected planets (systemBodyIds planets pr.2.planetIds) b
      (systemBodyIds_nodup _ _) hb
  · exact nestingTrace_center planets (systemBodyIds planets pr.2.planetIds)
  · intro k hk
    rcases assignLevels_mem planets (systemBodyIds planets pr.2.planetIds)
        ((systemBodyIds planets pr.2.planetIds).length + 1) ParentRef.center 0
        (ParentRef.body b) k hk with ⟨hx, _⟩ | ⟨c, hx, hk1, hmem⟩
    · cases hx
    · have hbc : b = c := by
        cases hx
        rfl
      subst hbc
      exact ⟨hk1, hmem⟩

/-- **C1** counterexample: with a single planet whose `moon_of` points to
itself, the body gets a parent (itself) but the level traversal from the
center never reaches it, so it has no nesting level — the claim as stated
fails at this input. -/
theorem hierarchy_invariant_counterexample :
    ¬ claim1Statement starsBadW [(("1".toList), ⟨some ("1".toList), none⟩)] := by
  decide

/-- Witness for the amended C1 at a two-body system (planet `1`, moon `2`). -/
theorem hierarchy_invariant_witness :
    sysW.parents.countP (fun a => a.1 == ("2".toList)) = 1 ∧
    sysParentOf sysW ("2".toList) = expectedParent planetsW sysW.bodies ("2".toList) ∧
    sysLevelOf sysW ParentRef.center = some 0 := by
  have h := hierarchy_invariant starsW planetsW sysW (by decide) ("2".toList) (by decide)
  exact ⟨h.1, h.2.1, h.2.2.1⟩

/-- **C6** (corrected/amended): a planet record whose `moon_of` names an ID
absent from the current system's body map is attached to the synthetic
system-center fallback node and construction of the system completes
without a fatal error — but, contrary to the claim, no diagnostic is
emitted: the lines `build_galaxy_hierarchy` prints do not depend on the
planet data at all. -/
theorem dangling_moon_fallback (stars : List (List Char × StarRec))
    (planets : List (List Char × PlanetRec)) :
    (∀ s ∈ (buildGalaxyHierarchy stars planets).1, ∀ b ∈ s.bodies,
      ∀ pid, bodyMoonOf planets b = some pid →
        s.bodies.any (fun k => k == pid) = false →
        sysParentOf s b = ParentRef.center) ∧
    (∀ planets', (buildGalaxyHierarchy stars planets).2
      = (buildGalaxyHierarchy stars planets').2) := by
  constructor
  · intro s hs b hb pid hpid hnot
    obtain ⟨pr, _, rfl⟩ := List.mem_map.mp hs
    have hexp := parentOf_eq_expected planets (systemBodyIds planets pr.2.planetIds) b
      (systemBodyIds_nodup _ _) hb
    show parentOf planets (systemBodyIds planets pr.2.planetIds) b = ParentRef.center
    rw [hexp]
    unfold expectedParent
    simp only [hpid]
    simp [hnot]
  · intro planets'
    rfl

/-- **C6** counterexample: for the dangling-`moon_of` input, no printed
line mentions the missing ID (the claim's "emits a diagnostic" part is
false; the attachment part holds and is proved in the amended theorem). -/
theorem dangling_moon_fallback_counterexample :
    ¬ claim6Statement starsBadW planetsDanglingW ("1".toList) ("99".toList) := by
  decide

/-- Witness for the amended C6 at the concrete dangling-reference input. -/
theorem dangling_moon_fallback_witness :
    sysParentOf sysW6 ("1".toList) = ParentRef.center ∧
    (buildGalaxyHierarchy starsBadW planetsDanglingW).2
      = (buildGalaxyHierarchy starsBadW []).2 := by
  have h := dangling_moon_fallback starsBadW planetsDanglingW
  exact ⟨h.1 sysW6 (by decide) ("1".toList) (by decide) ("99".toList) (by decide) (by decide),
    h.2 []⟩
